import Mathlib

set_option maxRecDepth 10000

/-!
Verification of the Enduraw testing tool's XML-extraction and data-merge
pipeline (`xml_parser.py`, `src/core/data_transformer.py`, `src/core/models.py`,
`src/config.py`).  The parser operates on a grid of cell strings (rows of
cells), so the embedding starts at that level; Python floats are modelled as
exact rationals (the type `Q` below, kept in lowest terms so that structural
equality is value equality and every operation reduces inside the kernel),
Python dicts as insertion-ordered association lists with key-overwrite
semantics, and Python runtime errors (the `TypeError` that `sum` raises on a
string operand) as an explicit `Except` error.  String manipulation is
carried out on `List Char` with structural recursion so that every
definition evaluates.
-/

namespace Enduraw

/-! ## Computable rationals

`Q` is a rational number as a numerator/denominator pair.  Every value built
by the smart constructor `mkQ` is canonical: positive denominator, lowest
terms.  `Q.toRat` maps into Mathlib's `ℚ` and is used to borrow ordered-field
lemmas in the universal proofs. -/

/-- A rational number as a numerator / denominator pair of integers. -/
structure Q where
  num : ℤ
  den : ℤ
  deriving DecidableEq, Repr

/-- Smart constructor: sign-normalise and divide out the gcd, so the result
is canonical.  A zero denominator (which the modelled code never produces,
since every division in the source is guarded) yields `0`. -/
def mkQ (n d : ℤ) : Q :=
  if d = 0 then ⟨0, 1⟩
  else
    let n' := if d < 0 then -n else n
    let d' := if d < 0 then -d else d
    let g : ℤ := (Int.gcd n' d' : ℤ)
    ⟨n' / g, d' / g⟩

/-- Embed an integer. -/
def qofInt (n : ℤ) : Q := ⟨n, 1⟩

/-- Embed a natural number. -/
def qofNat (n : ℕ) : Q := ⟨(n : ℤ), 1⟩

instance (n : ℕ) : OfNat Q n := ⟨qofNat n⟩

/-- Addition. -/
def qadd (a b : Q) : Q := mkQ (a.num * b.den + b.num * a.den) (a.den * b.den)

/-- Negation. -/
def qneg (a : Q) : Q := ⟨-a.num, a.den⟩

/-- Subtraction. -/
def qsub (a b : Q) : Q := qadd a (qneg b)

/-- Multiplication. -/
def qmul (a b : Q) : Q := mkQ (a.num * b.num) (a.den * b.den)

/-- Division. -/
def qdiv (a b : Q) : Q := mkQ (a.num * b.den) (a.den * b.num)

instance : Add Q := ⟨qadd⟩
instance : Neg Q := ⟨qneg⟩
instance : Sub Q := ⟨qsub⟩
instance : Mul Q := ⟨qmul⟩
instance : Div Q := ⟨qdiv⟩

/-- Order, by cross multiplication (sound on canonical values, whose
denominators are positive). -/
def qle (a b : Q) : Bool := a.num * b.den ≤ b.num * a.den

/-- Strict order, by cross multiplication. -/
def qlt (a b : Q) : Bool := a.num * b.den < b.num * a.den

instance : LE Q := ⟨fun a b => qle a b = true⟩
instance : LT Q := ⟨fun a b => qlt a b = true⟩

instance (a b : Q) : Decidable (a ≤ b) := inferInstanceAs (Decidable (qle a b = true))
instance (a b : Q) : Decidable (a < b) := inferInstanceAs (Decidable (qlt a b = true))

/-- Floor, as the floor division of the numerator by the (positive)
denominator. -/
def qfloor (a : Q) : ℤ := Int.fdiv a.num a.den

/-- Truncation toward zero, the model of Python's `int(x)` on a float. -/
def qtrunc (a : Q) : ℤ := Int.tdiv a.num a.den

/-- Interpretation into Mathlib's rationals. -/
def Q.toRat (a : Q) : ℚ := (a.num : ℚ) / (a.den : ℚ)

/-- Canonical values have a positive denominator; this is the only part of
canonicity the order/floor correspondence lemmas need. -/
def Q.posden (a : Q) : Prop := 0 < a.den

instance (a : Q) : Decidable (Q.posden a) := inferInstanceAs (Decidable (0 < a.den))

/-! ## String primitives (models of the Python `str` operations used) -/

/-- Replace every occurrence of one character by another, as Python's
single-character `str.replace`. -/
def replaceChar (a b : Char) (cs : List Char) : List Char :=
  cs.map fun c => if c = a then b else c

/-- Boolean prefix test on character lists. -/
def isPrefixL : List Char → List Char → Bool
  | [], _ => true
  | _ :: _, [] => false
  | a :: as, b :: bs => a = b && isPrefixL as bs

/-- Fuel-driven worker for `replaceL`; the fuel is the input length, enough
because each step consumes at least one character. -/
def replaceLAux (patt repl : List Char) : ℕ → List Char → List Char
  | 0, cs => cs
  | _ + 1, [] => []
  | fuel + 1, c :: cs =>
      if patt ≠ [] ∧ isPrefixL patt (c :: cs) then
        repl ++ replaceLAux patt repl fuel (cs.drop (patt.length - 1))
      else
        c :: replaceLAux patt repl fuel cs

/-- Replace every (leftmost, non-overlapping) occurrence of a non-empty
pattern, as Python's `str.replace` with a multi-character pattern. -/
def replaceL (patt repl cs : List Char) : List Char :=
  replaceLAux patt repl cs.length cs

/-- Boolean substring containment, the model of Python's `x in s` on
strings. -/
def isInfixL (needle : List Char) : List Char → Bool
  | [] => needle.isEmpty
  | c :: cs => isPrefixL needle (c :: cs) || isInfixL needle cs

/-- Substring containment lifted to `String`. -/
def containsSub (needle hay : String) : Bool :=
  isInfixL needle.data hay.data

/-- The whitespace characters stripped by Python's `str.strip`. -/
def isPyWhitespace (c : Char) : Bool :=
  c = ' ' || c = '\t' || c = '\n' || c = '\r' || c = '\x0b' || c = '\x0c'

/-- Model of Python's `str.strip()`. -/
def stripL (cs : List Char) : List Char :=
  ((cs.dropWhile isPyWhitespace).reverse.dropWhile isPyWhitespace).reverse

/-- Split a character list on a separator character, as Python's
`str.split(sep)` with a one-character separator. -/
def splitOnCharAux (sep : Char) : List Char → List Char → List (List Char)
  | [], acc => [acc.reverse]
  | c :: cs, acc =>
      if c = sep then acc.reverse :: splitOnCharAux sep cs []
      else splitOnCharAux sep cs (c :: acc)

/-- Split on a separator character. -/
def splitOnChar (sep : Char) (cs : List Char) : List (List Char) :=
  splitOnCharAux sep cs []

/-! ## Numeric coercion -/

/-- Dynamic spreadsheet-cell / measurement value: Python's `None`, a number
(`int` and `float` are both modelled as `Q`), or a string. -/
inductive PyVal where
  | none
  | num (q : Q)
  | str (s : String)
  deriving DecidableEq, Repr

/-- Characters '0'..'9', the ASCII digits accepted by `int`/`float` parsing. -/
def isDigitC (c : Char) : Bool := '0' ≤ c && c ≤ '9'

/-- Numeric value of a digit character. -/
def digitVal (c : Char) : ℕ := c.toNat - '0'.toNat

/-- Value of a digit string, most significant first. -/
def digitsToNat (cs : List Char) : ℕ :=
  cs.foldl (fun acc c => acc * 10 + digitVal c) 0

/-- Model of Python's `int(s)` on a cell string: an optional sign followed by
at least one ASCII digit; anything else raises `ValueError`, modelled as
`none`. -/
def parseIntQ (s : List Char) : Option ℤ :=
  match s with
  | '-' :: rest =>
      if rest ≠ [] ∧ rest.all isDigitC then some (-(digitsToNat rest : ℤ)) else Option.none
  | '+' :: rest =>
      if rest ≠ [] ∧ rest.all isDigitC then some (digitsToNat rest : ℤ) else Option.none
  | cs =>
      if cs ≠ [] ∧ cs.all isDigitC then some (digitsToNat cs : ℤ) else Option.none

/-- Ten to an integer power, as a rational. -/
def qpow10 (e : ℤ) : Q :=
  if 0 ≤ e then qofInt ((10 : ℤ) ^ e.toNat) else mkQ 1 ((10 : ℤ) ^ (-e).toNat)

/-- Parse the exponent suffix of a float literal: either nothing, or
`e`/`E`, an optional sign, and at least one digit, consuming the whole rest. -/
def parseExpoPart (cs : List Char) : Option ℤ :=
  match cs with
  | [] => some 0
  | 'e' :: rest | 'E' :: rest =>
      match rest with
      | '-' :: ds => if ds ≠ [] ∧ ds.all isDigitC then some (-(digitsToNat ds : ℤ)) else Option.none
      | '+' :: ds => if ds ≠ [] ∧ ds.all isDigitC then some (digitsToNat ds : ℤ) else Option.none
      | ds => if ds ≠ [] ∧ ds.all isDigitC then some (digitsToNat ds : ℤ) else Option.none
  | _ => Option.none

/-- Parse the unsigned part of a float literal: digits with an optional dot
(`12`, `12.`, `12.5`, `.5`) followed by an optional exponent part. -/
def parseFloatBody (cs : List Char) : Option Q :=
  let intPart := cs.takeWhile isDigitC
  let rest := cs.dropWhile isDigitC
  match rest with
  | '.' :: r2 =>
      let fracPart := r2.takeWhile isDigitC
      let r3 := r2.dropWhile isDigitC
      if intPart = [] ∧ fracPart = [] then Option.none
      else
        (parseExpoPart r3).map fun e =>
          (qofNat (digitsToNat intPart) +
            mkQ (digitsToNat fracPart : ℤ) ((10 : ℤ) ^ fracPart.length)) * qpow10 e
  | _ =>
      if intPart = [] then Option.none
      else (parseExpoPart rest).map fun e => qofNat (digitsToNat intPart) * qpow10 e

/-- Model of Python's `float(s)` on a cell string: optional sign, decimal
digits with an optional dot, optional exponent.  The special forms
`inf`/`infinity`/`nan`, which cannot be represented exactly and never occur
in the vendor files, are outside the model. -/
def parseFloatQ (s : List Char) : Option Q :=
  match s with
  | '-' :: rest => (parseFloatBody rest).map (fun q => -q)
  | '+' :: rest => parseFloatBody rest
  | cs => parseFloatBody cs

/-- Embedding of `TCPXmlParser._convert_value` (xml_parser.py:291-305): empty
or `"-"` becomes `None`; otherwise commas become dots and spaces are removed,
then the cleaned string is parsed as a float when it contains a dot and as an
int otherwise, falling back to the original string. -/
def convert_value (value : String) : PyVal :=
  if value = "" ∨ value = "-" then PyVal.none
  else
    let value_clean := (replaceChar ',' '.' value.data).filter (fun c => c ≠ ' ')
    if value_clean.contains '.' then
      match parseFloatQ value_clean with
      | some q => PyVal.num q
      | Option.none => PyVal.str value
    else
      match parseIntQ value_clean with
      | some n => PyVal.num (qofInt n)
      | Option.none => PyVal.str value

example : convert_value "3,14" = PyVal.num (mkQ 157 50) := by with_unfolding_all decide
example : convert_value "-" = PyVal.none := by with_unfolding_all decide
example : convert_value "" = PyVal.none := by with_unfolding_all decide
example : convert_value "1e1" = PyVal.str "1e1" := by with_unfolding_all decide
example : convert_value "12" = PyVal.num 12 := by with_unfolding_all decide
example : convert_value "1 250,5" = PyVal.num (mkQ 2501 2) := by
  simp +decide [convert_value, replaceChar, parseFloatQ, parseFloatBody, parseExpoPart,
    parseIntQ, digitsToNat, digitVal, isDigitC, qpow10, qofNat, qofInt, mkQ,
    HMul.hMul, Mul.mul, qmul, HAdd.hAdd, Add.add, qadd]

/-! ## Association lists: the model of Python `dict`

A Python dict is insertion-ordered; assigning to an existing key overwrites
its value in place.  `insertKV` reproduces exactly that. -/

/-- Python `d[k] = v`: overwrite in place if the key exists, else append. -/
def insertKV {α : Type} (k : String) (v : α) : List (String × α) → List (String × α)
  | [] => [(k, v)]
  | (k', v') :: rest => if k' = k then (k, v) :: rest else (k', v') :: insertKV k v rest

/-- Python `d.get(k)`: the value at the first (hence, for `insertKV`-built
lists, only) occurrence of the key. -/
def lookupKV {α : Type} (k : String) : List (String × α) → Option α
  | [] => Option.none
  | (k', v) :: rest => if k' = k then some v else lookupKV k rest

/-! ## Section locator and key/value extraction (xml_parser.py) -/

/-- Embedding of `TCPXmlParser._find_section_start` (xml_parser.py:126-132):
index of the first row whose first cell contains the section name as a
substring (`none` for the Python sentinel `-1`). -/
def find_section_start (rows : List (List String)) (section_name : String) : Option ℕ :=
  rows.findIdx? fun cells => !cells.isEmpty && containsSub section_name (cells.headD "")

/-- A row that Python's `not cells or all(c == "" for c in cells)` calls
empty: no cells, or only empty cells. -/
def isBlankRow (cells : List String) : Bool :=
  cells.all fun c => c = ""

/-- The next-section marker words looked for after a blank row
(xml_parser.py:151). -/
def nextSectionMarker (c : String) : Bool :=
  containsSub "Données" c || containsSub "Tableau" c || containsSub "Valeur" c

/-- The lookahead test of `_parse_key_value_pairs`: the row after a blank row
must be non-empty and have a non-empty cell containing a marker word for the
extraction to stop. -/
def kvTerminates (next_cells : List String) : Bool :=
  !next_cells.isEmpty && next_cells.any fun c => c ≠ "" && nextSectionMarker c

/-- The value picked for a key row: the third cell when it exists, else the
second (xml_parser.py:160). -/
def kvValue (cells : List String) : String :=
  if 2 < cells.length then cells.getD 2 "" else cells.getD 1 ""

/-- The row-consuming loop of `TCPXmlParser._parse_key_value_pairs`
(xml_parser.py:139-164), written over the list of remaining rows; `acc` is
the result dict built so far. -/
def parse_kv_loop (end_section : Option String) (acc : List (String × String)) :
    List (List String) → List (String × String)
  | [] => acc
  | cells :: rest =>
    if (match end_section with
        | some es => !cells.isEmpty && containsSub es (cells.headD "")
        | Option.none => false) then acc
    else if isBlankRow cells then
      match rest with
      | next :: _ => if kvTerminates next then acc else parse_kv_loop end_section acc rest
      | [] => parse_kv_loop end_section acc rest
    else if 2 ≤ cells.length ∧ cells.headD "" ≠ "" then
      parse_kv_loop end_section (insertKV (cells.headD "") (kvValue cells) acc) rest
    else parse_kv_loop end_section acc rest

/-- Embedding of `TCPXmlParser._parse_key_value_pairs` (xml_parser.py:134-165):
key/value pairs of the rows following `start_idx`. -/
def parse_key_value_pairs (rows : List (List String)) (start_idx : ℕ)
    (end_section : Option String) : List (String × String) :=
  parse_kv_loop end_section [] (rows.drop (start_idx + 1))

/-! ## Summary table extraction (xml_parser.py:190-237) -/

/-- The section-end test of the summary-table data loop (xml_parser.py:223). -/
def summaryEnds (cells : List String) : Bool :=
  cells.any fun c => c ≠ "" && (containsSub "Valeur de pente" c || containsSub "Measurement Data" c)

/-- One summary data row: each header, by position, mapped to the coerced
cell below it (xml_parser.py:229-232). -/
def summaryRowData (headers cells : List String) : List (String × PyVal) :=
  headers.enum.foldl
    (fun acc hj =>
      if hj.1 < cells.length then insertKV hj.2 (convert_value (cells.getD hj.1 "")) acc
      else acc)
    []

/-- The data-row loop of `_parse_summary_table` (xml_parser.py:210-235). -/
def parse_summary_loop (headers : List String)
    (acc : List (String × List (String × PyVal))) :
    List (List String) → List (String × List (String × PyVal))
  | [] => acc
  | cells :: rest =>
    if isBlankRow cells then
      match rest with
      | next :: _ => if isBlankRow next then acc else parse_summary_loop headers acc rest
      | [] => parse_summary_loop headers acc rest
    else if summaryEnds cells then acc
    else if 2 ≤ cells.length ∧ cells.headD "" ≠ "" then
      parse_summary_loop headers (insertKV (cells.headD "") (summaryRowData headers cells) acc) rest
    else parse_summary_loop headers acc rest

/-- The header-row scan of `_parse_summary_table` (xml_parser.py:201-207):
find the row whose first cell contains "Variable". -/
def parse_summary_header : List (List String) → Option (List String × List (List String))
  | [] => Option.none
  | cells :: rest =>
    if !cells.isEmpty && containsSub "Variable" (cells.headD "") then some (cells, rest)
    else parse_summary_header rest

/-- Embedding of `TCPXmlParser._parse_summary_table` (xml_parser.py:190-237). -/
def parse_summary_table (rows : List (List String)) :
    List (String × List (String × PyVal)) :=
  match find_section_start rows "Tableau Résumé" with
  | Option.none => []
  | some idx =>
    match parse_summary_header (rows.drop (idx + 1)) with
    | Option.none => []
    | some (headers, rest) => parse_summary_loop headers [] rest

/-! ## Measurement stream extraction (xml_parser.py:239-289, 307-320) -/

/-- Embedding of `TCPXmlParser._time_to_seconds` (xml_parser.py:307-320):
`h:mm:ss[,fraction]` to seconds, `0` on any parse failure. -/
def time_to_seconds (time_str : String) : Q :=
  match splitOnChar ':' (replaceChar ',' '.' time_str.data) with
  | [p0, p1, p2] =>
    match parseIntQ p0, parseIntQ p1, parseFloatQ p2 with
    | some h, some m, some s => qofInt h * 3600 + qofInt m * 60 + s
    | _, _, _ => 0
  | _ => 0

/-- Model of `re.match(r'\d+:\d+:\d+', s)` (xml_parser.py:272): the string
starts with digits, a colon, digits, a colon, and a digit. -/
def startsWithTimeL (cs : List Char) : Bool :=
  !(cs.takeWhile isDigitC).isEmpty &&
    match cs.dropWhile isDigitC with
    | ':' :: r2 =>
      !(r2.takeWhile isDigitC).isEmpty &&
        match r2.dropWhile isDigitC with
        | ':' :: r4 => !(r4.takeWhile isDigitC).isEmpty
        | _ => false
    | _ => false

/-- String version of `startsWithTimeL`. -/
def startsWithTime (s : String) : Bool := startsWithTimeL s.data

/-- One parsed measurement record: the derived `t_seconds` value plus the
per-column dict (which also holds the raw `t` text, as in the source). -/
structure Meas where
  t_seconds : Q
  fields : List (String × PyVal)
  deriving DecidableEq, Repr

/-- One measurement data row (xml_parser.py:275-286): each non-empty header
with a cell below it contributes a field; the `t` column contributes both
`t_seconds` and the raw `t` text. -/
def buildMeasRow (headers cells : List String) : Meas :=
  headers.enum.foldl
    (fun acc hj =>
      if hj.1 < cells.length ∧ hj.2 ≠ "" then
        let value := cells.getD hj.1 ""
        if hj.2 = "t" then
          { acc with t_seconds := time_to_seconds value,
                     fields := insertKV "t" (PyVal.str value) acc.fields }
        else
          { acc with fields := insertKV hj.2 (convert_value value) acc.fields }
      else acc)
    { t_seconds := 0, fields := [] }

/-- The data-row loop of `_parse_measurement_data` (xml_parser.py:264-287):
rows with no / an empty first cell are skipped, rows whose first cell starts
with a time pattern are parsed, and the first other row ends the stream. -/
def parse_meas_rows (headers : List String) : List (List String) → List Meas
  | [] => []
  | cells :: rest =>
    match cells with
    | [] => parse_meas_rows headers rest
    | c0 :: _ =>
      if c0 = "" then parse_meas_rows headers rest
      else if startsWithTime c0 then buildMeasRow headers cells :: parse_meas_rows headers rest
      else []

/-- The header scan of `_parse_measurement_data` (xml_parser.py:251-261):
find the row whose first cell is exactly "t", discard the units row after it,
then hand the rest to the data loop. -/
def parse_meas_after_section (headers_hunt : List (List String)) : List Meas :=
  match headers_hunt with
  | [] => []
  | cells :: rest =>
    if !cells.isEmpty && cells.headD "" = "t" then
      match rest with
      | [] => []
      | _units :: dataRows => parse_meas_rows cells dataRows
    else parse_meas_after_section rest

/-- Embedding of `TCPXmlParser._parse_measurement_data`
(xml_parser.py:239-289). -/
def parse_measurement_data (rows : List (List String)) : List Meas :=
  match find_section_start rows "Measurement Data" with
  | Option.none => []
  | some idx => parse_meas_after_section (rows.drop (idx + 1))

/-! ## Filename metadata parser (xml_parser.py:87-108) -/

/-- The character class `[A-Z]` of the filename pattern. -/
def isUpperAZ (c : Char) : Bool := 'A' ≤ c && c ≤ 'Z'

/-- The character class `[A-Za-zÀ-ÿ]` of the filename pattern (the accented
range is the Unicode codepoints 0xC0 to 0xFF). -/
def isNameLetter (c : Char) : Bool :=
  isUpperAZ c || ('a' ≤ c && c ≤ 'z') || (0xC0 ≤ c.toNat && c.toNat ≤ 0xFF)

/-- Take exactly `n` digits from the front, returning them and the rest. -/
def takeExactDigits : ℕ → List Char → Option (List Char × List Char)
  | 0, cs => some ([], cs)
  | _ + 1, [] => Option.none
  | n + 1, c :: cs =>
      if isDigitC c then (takeExactDigits n cs).map (fun p => (c :: p.1, p.2)) else Option.none

/-- The groups captured by the filename regex
`TCP__([A-Z]+)_([A-Za-zÀ-ÿ]+)_(\d{4})\.(\d{2})\.(\d{2})_(\d{2})\.(\d{2})\.(\d{2})_\.xml`
under `re.match` (prefix) semantics; each `+` class is followed by a
character outside the class, so greedy matching is deterministic. -/
def matchFilenameGroups (cs : List Char) :
    Option (List Char × List Char × List Char × List Char × List Char
      × List Char × List Char × List Char) :=
  match cs with
  | 'T' :: 'C' :: 'P' :: '_' :: '_' :: r0 =>
    let nom := r0.takeWhile isUpperAZ
    if nom.isEmpty then Option.none else
    match r0.dropWhile isUpperAZ with
    | '_' :: r1 =>
      let prenom := r1.takeWhile isNameLetter
      if prenom.isEmpty then Option.none else
      match r1.dropWhile isNameLetter with
      | '_' :: r2 =>
        match takeExactDigits 4 r2 with
        | some (year, '.' :: r3) =>
          match takeExactDigits 2 r3 with
          | some (month, '.' :: r4) =>
            match takeExactDigits 2 r4 with
            | some (day, '_' :: r5) =>
              match takeExactDigits 2 r5 with
              | some (hour, '.' :: r6) =>
                match takeExactDigits 2 r6 with
                | some (minute, '.' :: r7) =>
                  match takeExactDigits 2 r7 with
                  | some (second, '_' :: '.' :: 'x' :: 'm' :: 'l' :: _) =>
                    some (nom, prenom, year, month, day, hour, minute, second)
                  | _ => Option.none
                | _ => Option.none
              | _ => Option.none
            | _ => Option.none
          | _ => Option.none
        | _ => Option.none
      | _ => Option.none
    | _ => Option.none
  | _ => Option.none

/-- The five string fields returned by `_parse_filename`. -/
structure FilenameData where
  last_name : String
  first_name : String
  date : String
  time : String
  datetime : String
  deriving DecidableEq, Repr

/-- Embedding of `TCPXmlParser._parse_filename` (xml_parser.py:87-108): on a
regex match, the structured fields; otherwise all fields empty. -/
def parse_filename (filename : String) : FilenameData :=
  match matchFilenameGroups filename.data with
  | some (nom, prenom, year, month, day, hour, minute, second) =>
    { last_name := String.mk nom
      first_name := String.mk prenom
      date := String.mk (year ++ '-' :: month ++ '-' :: day)
      time := String.mk (hour ++ ':' :: minute ++ ':' :: second)
      datetime := String.mk (year ++ '-' :: month ++ '-' :: day ++ 'T' ::
        hour ++ ':' :: minute ++ ':' :: second) }
  | Option.none => { last_name := "", first_name := "", date := "", time := "", datetime := "" }

/-! ## Parsed document and manual input (data_transformer.py inputs)

`XmlData` is the dictionary returned by `TCPXmlParser.parse_file`;
`ManualInput` is the nested manual-input mapping, modelled as structures with
one `Option` field per optional key (`none` = key absent or `None`), so that
Python's `d.get(k, default)` becomes `Option.getD`. -/

/-- The dictionary returned by `TCPXmlParser.parse_file` (xml_parser.py:78-85). -/
structure XmlData where
  filename_data : FilenameData := { last_name := "", first_name := "", date := "",
                                    time := "", datetime := "" }
  patient_data : List (String × String) := []
  bio_data : List (String × String) := []
  test_metadata : List (String × String) := []
  summary_data : List (String × List (String × PyVal)) := []
  measurements : List Meas := []
  deriving DecidableEq, Repr

/-- One entry of `stress_test_results.lactate_profile`. -/
structure LactateEntry where
  speed : Option Q := Option.none
  lactate_mmol_l : Option Q := Option.none
  deriving DecidableEq, Repr

/-- One of `stress_test_results.thresholds.sv1` / `.sv2`. -/
structure ThresholdInput where
  hr_bpm : Option Q := Option.none
  pace_km_h : Option Q := Option.none
  deriving DecidableEq, Repr

/-- The manual `stress_test_results` section. -/
structure StressTestResults where
  thresholds_sv1 : ThresholdInput := {}
  thresholds_sv2 : ThresholdInput := {}
  measured_vo2max : Option Q := Option.none
  max_hr : Option Q := Option.none
  first_stage_speed : Option Q := Option.none
  last_stage_speed : Option Q := Option.none
  lactate_profile : List LactateEntry := []
  deriving DecidableEq, Repr

/-- The manual `identity` section. -/
structure IdentityInput where
  last_name : Option String := Option.none
  first_name : Option String := Option.none
  date_of_birth : Option String := Option.none
  age : Option Q := Option.none
  sport_practiced : Option String := Option.none
  specialty : Option String := Option.none
  has_coach : Option Bool := Option.none
  deriving DecidableEq, Repr

/-- The manual `body_composition` section. -/
structure BodyComposition where
  height_cm : Option Q := Option.none
  current_weight : Option Q := Option.none
  weight_before_test : Option Q := Option.none
  weight_after_test : Option Q := Option.none
  deriving DecidableEq, Repr

/-- The manual `professional_life` section. -/
structure ProfessionalLife where
  job_title : Option String := Option.none
  working_hours_per_week : Option Q := Option.none
  deriving DecidableEq, Repr

/-- The manual `watch_race_predictions` sub-section; the Python keys are
`5k`, `10k`, `half_marathon`, `marathon`. -/
structure RacePredictions where
  p5k : Option String := Option.none
  p10k : Option String := Option.none
  half_marathon : Option String := Option.none
  marathon : Option String := Option.none
  deriving DecidableEq, Repr

/-- The manual `equipment_and_tracking` section. -/
structure EquipmentTracking where
  watch_brand : Option String := Option.none
  watch_estimated_vo2 : Option Q := Option.none
  min_hr_before : Option Q := Option.none
  max_hr_ever : Option Q := Option.none
  average_weekly_volume : Option String := Option.none
  watch_race_predictions : RacePredictions := {}
  deriving DecidableEq, Repr

/-- The manual `history_and_goals` section. -/
structure HistoryGoals where
  official_records : Option String := Option.none
  trail_runner : Option Bool := Option.none
  utmb_index : Option Q := Option.none
  upcoming_goals : Option String := Option.none
  deriving DecidableEq, Repr

/-- The whole manual-input mapping passed to `DataTransformer.transform`. -/
structure ManualInput where
  email : Option String := Option.none
  identity : IdentityInput := {}
  body_composition : BodyComposition := {}
  professional_life : ProfessionalLife := {}
  equipment_and_tracking : EquipmentTracking := {}
  history_and_goals : HistoryGoals := {}
  stress_test_results : StressTestResults := {}
  protocol_description : Option String := Option.none
  observations_lactate : Option String := Option.none
  conseils_entrainements : Option String := Option.none
  seance_veille : Option String := Option.none
  observations : Option String := Option.none
  deriving DecidableEq, Repr

/-! ## Output models (src/core/models.py) -/

/-- `models.Seuil` (models.py:9-23). -/
structure Seuil where
  vo2 : Option Q := Option.none
  allure : Option Q := Option.none
  fc : Option Q := Option.none
  pourcentage_vma : Option ℤ := Option.none
  deriving DecidableEq, Repr

/-- `models.VO2Max` (models.py:26-36). -/
structure VO2MaxS where
  valeur : Option Q := Option.none
  fc_max : Option Q := Option.none
  deriving DecidableEq, Repr

/-- `models.VMA` (models.py:39-45). -/
structure VMAS where
  valeur : Option Q := Option.none
  deriving DecidableEq, Repr

/-- The `seuils` dict built by `_build_seuils`, with its four fixed keys
`SV1`, `SV2`, `VO2_max`, `VMA`. -/
structure Seuils where
  sv1 : Seuil := {}
  sv2 : Seuil := {}
  vo2_max : VO2MaxS := {}
  vma : VMAS := {}
  deriving DecidableEq, Repr

/-- `models.LactateMeasure` (models.py:48-58). -/
structure LactateMeasure where
  vitesse : Q
  lactate : Q
  deriving DecidableEq, Repr

/-- The `test_lactate` dict built by `_build_test_lactate`. -/
structure TestLactate where
  actif : Bool
  mesures : List LactateMeasure
  deriving DecidableEq, Repr

/-- The `protocole` dict built by `_build_protocole`. -/
structure Protocole where
  vitesse_depart_test : Option Q
  description : String
  deriving DecidableEq, Repr

/-- `models.PatientInfo` (models.py:61-219), with every field the
transformer can set; the trailing fields keep their dataclass defaults
because `_build_patient_info` never assigns them. -/
structure PatientInfoS where
  nom : String := ""
  prenom : String := ""
  date_naissance : String := ""
  age : Option Q := Option.none
  sport_base : String := ""
  specialty : String := ""
  has_coach : Bool := false
  taille_cm : Option Q := Option.none
  poids_actuel : Option Q := Option.none
  poids_debut : Option Q := Option.none
  poids_final : Option Q := Option.none
  metier : String := ""
  heures_travail : Option Q := Option.none
  marque_montre : String := ""
  vo2_montre : Option Q := Option.none
  fc_repos : Option Q := Option.none
  fcmax_ever : Option Q := Option.none
  volume_cap : Option Q := Option.none
  prediction_5k : String := ""
  prediction_10k : String := ""
  prediction_semi : String := ""
  prediction_marathon : String := ""
  records_officiels : String := ""
  trail_runner : Bool := false
  utmb_index : Option Q := Option.none
  objectifs : String := ""
  seance_veille : String := ""
  observations : String := ""
  last_stage_speed : Option Q := Option.none
  annee_debut : Option Q := Option.none
  rsi_avant : Option Q := Option.none
  rsi_apres : Option Q := Option.none
  cmj_avant_hauteur_cm : Option Q := Option.none
  cmj_avant_force_max_kfg_kg : Option Q := Option.none
  cmj_avant_puissance_max_w_kg : Option Q := Option.none
  cmj_apres_hauteur_cm : Option Q := Option.none
  cmj_apres_force_max_kfg_kg : Option Q := Option.none
  cmj_apres_puissance_max_w_kg : Option Q := Option.none
  notes_privees : String := ""
  altitude_vie_m : Option Q := Option.none
  spo2_avant : Option Q := Option.none
  spo2_apres : Option Q := Option.none
  lactatemie_repos : Option Q := Option.none
  deriving DecidableEq, Repr

/-- `models.ZoneSeuil` (models.py:258-289); `to_dict` only emits the
`Option` fields that are set, which the `Option` values model directly. -/
structure ZoneSeuil where
  nom : String
  couleur : String
  fc_min : Option ℤ := Option.none
  fc_max : Option ℤ := Option.none
  fc : Option Q := Option.none
  temps_debut_sec : Option Q := Option.none
  temps_fin_sec : Option Q := Option.none
  temps_sec : Option Q := Option.none
  label : String := ""
  deriving DecidableEq, Repr

/-- `models.GraphCurve` (models.py:222-242); `ctype` is the Python field
named `type`. -/
structure GraphCurve where
  nom : String
  couleur : String
  ctype : String := "lines"
  temps_secondes : List Q := []
  valeurs : List Q := []
  dash : Option String := Option.none
  deriving DecidableEq, Repr

/-- `models.Graph` (models.py:245-255). -/
structure Graph where
  titre : String
  courbes : List GraphCurve := []
  deriving DecidableEq, Repr

/-- The non-empty `graphiques` dict built by `_build_graphiques`; the empty
dict (no measurements) is modelled as `Option.none` one level up. -/
structure Graphiques where
  graphique_1 : Graph
  graphique_2 : Graph
  zones_seuils : List ZoneSeuil
  deriving DecidableEq, Repr

/-- `models.TestResult.consentements` default
`{'risques': False, 'donnees': False, 'anonyme': False}` (models.py:299). -/
structure Consentements where
  risques : Bool := false
  donnees : Bool := false
  anonyme : Bool := false
  deriving DecidableEq, Repr

/-- The `partenaires` placeholder. -/
structure Partenaires where
  titre : String
  logos : List String
  deriving DecidableEq, Repr

/-- `models.TestResult` (models.py:292-326), the document `transform`
returns via `to_dict`. -/
structure TestResult where
  user_id : String
  athlete_name : String
  test_date : String
  test_type : String
  consentements : Consentements
  seuils : Seuils
  protocole : Protocole
  test_lactate : TestLactate
  observations_lactate : String
  patient_info : PatientInfoS
  conseils_entrainements : String
  graphiques : Option Graphiques
  logos : List (String × String)
  partenaires : Partenaires
  deriving DecidableEq, Repr

/-! ## Data transformer (src/core/data_transformer.py) -/

/-- `config.GRAPH_INTERVAL_SECONDS` (config.py:44). -/
def GRAPH_INTERVAL_SECONDS : ℤ := 15

/-- `config.GRAPH_COLORS` (config.py:34-41). -/
def GRAPH_COLORS : List (String × String) :=
  [("FC", "rgb(255, 0, 0)"), ("V\x27O2", "rgb(0, 0, 255)"), ("V\x27CO2", "rgb(0, 200, 0)"),
   ("V\x27E", "rgb(255, 140, 0)"), ("BF", "rgb(30, 144, 255)"), ("RER", "rgb(220, 20, 60)")]

/-- Lookup in `GRAPH_COLORS` (every key used exists, so the default is
unreachable). -/
def graphColor (k : String) : String := (lookupKV k GRAPH_COLORS).getD ""

/-- Embedding of `DataTransformer._safe_float` (data_transformer.py:419-428). -/
def safe_float : PyVal → Option Q
  | PyVal.none => Option.none
  | PyVal.num q => some q
  | PyVal.str s => parseFloatQ (replaceChar ',' '.' s.data)

/-- The maximum recorded speed taken from the XML summary table: row `"v"`,
column `"Valeurs Maximales Absolues"` (data_transformer.py:88-89). -/
def vmaFromSummary (summary_data : List (String × List (String × PyVal))) : Option Q :=
  safe_float ((lookupKV "Valeurs Maximales Absolues" ((lookupKV "v" summary_data).getD [])).getD
    PyVal.none)

/-- The `pourcentage_vma` derivation (data_transformer.py:98-99 and 109-110):
`int((allure / max_speed) * 100)` guarded by Python truthiness of both
operands; `int` on a float truncates toward zero. -/
def pourcentageVma (allure max_speed : Option Q) : Option ℤ :=
  match allure, max_speed with
  | some a, some ms => if a ≠ 0 ∧ ms ≠ 0 then some (qtrunc ((a / ms) * 100)) else Option.none
  | _, _ => Option.none

/-- Embedding of `DataTransformer._build_seuils` (data_transformer.py:77-125). -/
def build_seuils (summary_data : List (String × List (String × PyVal)))
    (manual_input : ManualInput) : Seuils :=
  let stress := manual_input.stress_test_results
  let sv1_data := stress.thresholds_sv1
  let sv2_data := stress.thresholds_sv2
  let max_speed := vmaFromSummary summary_data
  { sv1 := { fc := sv1_data.hr_bpm, allure := sv1_data.pace_km_h, vo2 := Option.none,
             pourcentage_vma := pourcentageVma sv1_data.pace_km_h max_speed }
    sv2 := { fc := sv2_data.hr_bpm, allure := sv2_data.pace_km_h, vo2 := Option.none,
             pourcentage_vma := pourcentageVma sv2_data.pace_km_h max_speed }
    vo2_max := { valeur := stress.measured_vo2max, fc_max := stress.max_hr }
    vma := { valeur := max_speed } }

/-- Embedding of `DataTransformer._build_protocole` (data_transformer.py:127-135). -/
def build_protocole (manual_input : ManualInput) : Protocole :=
  { vitesse_depart_test := manual_input.stress_test_results.first_stage_speed
    description := manual_input.protocol_description.getD "" }

/-- The filter of `_build_test_lactate` (data_transformer.py:142-147): an
entry contributes a measurement exactly when both its `speed` and its
`lactate_mmol_l` are non-null, carried through unchanged. -/
def lactateComplete (e : LactateEntry) : Option LactateMeasure :=
  match e.speed, e.lactate_mmol_l with
  | some s, some l => some { vitesse := s, lactate := l }
  | _, _ => Option.none

/-- Embedding of `DataTransformer._build_test_lactate`
(data_transformer.py:137-152). -/
def build_test_lactate (manual_input : ManualInput) : TestLactate :=
  let mesures := manual_input.stress_test_results.lactate_profile.filterMap lactateComplete
  { actif := !mesures.isEmpty, mesures := mesures }

/-- The XML weight fallback (data_transformer.py:158-165):
`float(weight_str.replace('kg', '').replace(',', '.').strip())`, `none` when
the string is empty or unparsable. -/
def weight_from_xml (bio_data : List (String × String)) : Option Q :=
  let weight_str := (lookupKV "Poids" bio_data).getD ""
  if weight_str = "" then Option.none
  else parseFloatQ (stripL (replaceChar ',' '.' (replaceL "kg".data [] weight_str.data)))

/-- Python's `a or b` on two optional numbers: `b` when `a` is `None` or
zero. -/
def pyOrQ (a b : Option Q) : Option Q :=
  match a with
  | some q => if q ≠ 0 then some q else b
  | Option.none => b

/-- Embedding of `DataTransformer._parse_volume` (data_transformer.py:443-452). -/
def parse_volume (volume_str : String) : Option Q :=
  if volume_str = "" then Option.none
  else parseFloatQ (replaceChar ',' '.'
    (stripL (replaceL "h".data [] (replaceL "km".data [] volume_str.data))))

/-- Embedding of `DataTransformer._build_patient_info`
(data_transformer.py:154-223). -/
def build_patient_info (xml_data : XmlData) (manual_input : ManualInput) : PatientInfoS :=
  let weight_xml := weight_from_xml xml_data.bio_data
  let identity := manual_input.identity
  let body_comp := manual_input.body_composition
  let prof_life := manual_input.professional_life
  let equipment := manual_input.equipment_and_tracking
  let history := manual_input.history_and_goals
  let stress := manual_input.stress_test_results
  { nom := identity.last_name.getD ""
    prenom := identity.first_name.getD ""
    date_naissance := identity.date_of_birth.getD ""
    age := identity.age
    sport_base := identity.sport_practiced.getD ""
    specialty := identity.specialty.getD ""
    has_coach := identity.has_coach.getD false
    taille_cm := body_comp.height_cm
    poids_actuel := body_comp.current_weight
    poids_debut := pyOrQ body_comp.weight_before_test weight_xml
    poids_final := body_comp.weight_after_test
    metier := prof_life.job_title.getD ""
    heures_travail := prof_life.working_hours_per_week
    marque_montre := equipment.watch_brand.getD ""
    vo2_montre := equipment.watch_estimated_vo2
    fc_repos := equipment.min_hr_before
    fcmax_ever := equipment.max_hr_ever
    volume_cap := parse_volume (equipment.average_weekly_volume.getD "")
    prediction_5k := equipment.watch_race_predictions.p5k.getD ""
    prediction_10k := equipment.watch_race_predictions.p10k.getD ""
    prediction_semi := equipment.watch_race_predictions.half_marathon.getD ""
    prediction_marathon := equipment.watch_race_predictions.marathon.getD ""
    records_officiels := history.official_records.getD ""
    trail_runner := history.trail_runner.getD false
    utmb_index := history.utmb_index
    objectifs := history.upcoming_goals.getD ""
    seance_veille := manual_input.seance_veille.getD ""
    observations := manual_input.observations.getD ""
    last_stage_speed := stress.last_stage_speed }

/-! ## Curve aggregation (data_transformer.py:307-355) -/

/-- The Python runtime error the aggregation can raise: `sum` over a list
holding a string (or `None`) operand raises `TypeError`. -/
inductive PyErr where
  | typeError
  deriving DecidableEq, Repr

/-- One aggregated bucket: its `t_seconds` label and the averaged fields. -/
structure AggRec where
  t_seconds : Q
  fields : List (String × Q)
  deriving DecidableEq, Repr

/-- The keys excluded from aggregation (data_transformer.py:339). -/
def excludedKeys : List String := ["t", "t_seconds", "Phase", "Marqueur"]

/-- Append a value to the list collected for a key, keeping first-seen key
order, as `current_values[key].append(value)` on a `dict` of lists. -/
def accumField : List (String × List PyVal) → String → PyVal → List (String × List PyVal)
  | [], k, v => [(k, [v])]
  | (k', vs) :: rest, k, v =>
    if k' = k then (k', vs ++ [v]) :: rest else (k', vs) :: accumField rest k v

/-- Accumulate one measurement's non-excluded fields
(data_transformer.py:338-342). -/
def accumMeas (cv : List (String × List PyVal)) (m : Meas) : List (String × List PyVal) :=
  m.fields.foldl (fun cv2 kv => if kv.1 ∈ excludedKeys then cv2 else accumField cv2 kv.1 kv.2) cv

/-- Python's `sum` over the collected values starting from `0`: a string or
`None` operand raises `TypeError`. -/
def sumValsAux (acc : Q) : List PyVal → Except PyErr Q
  | [] => Except.ok acc
  | PyVal.num q :: rest => sumValsAux (acc + q) rest
  | PyVal.str _ :: _ => Except.error PyErr.typeError
  | PyVal.none :: _ => Except.error PyErr.typeError

/-- Sum of a list of dynamic values. -/
def sumVals (vs : List PyVal) : Except PyErr Q := sumValsAux 0 vs

/-- Round half to even on the exact rational value, the model of Python 3's
`round(x, n)` builtin rounding mode. -/
def roundHalfEvenZ (x : Q) : ℤ :=
  let f := qfloor x
  let r := x - qofInt f
  if r < mkQ 1 2 then f
  else if mkQ 1 2 < r then f + 1
  else if f % 2 = 0 then f else f + 1

/-- Model of `round(x, 2)` (data_transformer.py:329). -/
def pyRound2 (x : Q) : Q := mkQ (roundHalfEvenZ (x * 100)) 100

/-- The `v is not None` test of the `valid_values` filter
(data_transformer.py:327). -/
def notNoneV : PyVal → Bool
  | PyVal.none => false
  | _ => true

/-- Build the averaged fields of one bucket (data_transformer.py:325-329):
keys whose collected list is empty or all-`None` are omitted, the others get
the rounded mean of their non-`None` values. -/
def mkAvgFields : List (String × List PyVal) → Except PyErr (List (String × Q))
  | [] => Except.ok []
  | (k, vs) :: rest =>
    if vs = [] then mkAvgFields rest
    else
      let valid := vs.filter notNoneV
      if valid = [] then mkAvgFields rest
      else do
        let s ← sumVals valid
        let tail ← mkAvgFields rest
        Except.ok ((k, pyRound2 (s / qofNat valid.length)) :: tail)

/-- One saved bucket record: `{'t_seconds': current_interval}` plus the
averaged fields (data_transformer.py:324). -/
def mkAvgRec (ci : ℤ) (cv : List (String × List PyVal)) : Except PyErr AggRec := do
  let fs ← mkAvgFields cv
  Except.ok { t_seconds := qofInt ci, fields := fs }

/-- The bucket label of a sample (data_transformer.py:319):
`int(t // interval_sec) * interval_sec + interval_sec`. -/
def bucketOf (iv : ℤ) (t : Q) : ℤ := qfloor (t / qofInt iv) * iv + iv

/-- The accumulation loop of `_aggregate_by_interval`
(data_transformer.py:317-353), carrying the current interval label, the
collected values and the sample count. -/
def aggLoop (iv : ℤ) : List Meas → ℤ → List (String × List PyVal) → ℕ →
    Except PyErr (List AggRec)
  | [], ci, cv, count =>
    if 0 < count then do
      let r ← mkAvgRec ci cv
      Except.ok [r]
    else Except.ok []
  | m :: rest, ci, cv, count =>
    let interval := bucketOf iv m.t_seconds
    if interval ≠ ci then
      if 0 < count then do
        let r ← mkAvgRec ci cv
        let l ← aggLoop iv rest interval (accumMeas [] m) 1
        Except.ok (r :: l)
      else aggLoop iv rest interval (accumMeas [] m) 1
    else aggLoop iv rest ci (accumMeas cv m) (count + 1)

/-- Embedding of `DataTransformer._aggregate_by_interval`
(data_transformer.py:307-355). -/
def aggregate_by_interval (measurements : List Meas) (interval_sec : ℤ) :
    Except PyErr (List AggRec) :=
  if measurements = [] then Except.ok []
  else aggLoop interval_sec measurements 0 [] 0

/-! ## Threshold zones (data_transformer.py:357-417) -/

/-- Minimum of a non-empty list of rationals, as Python's `min`. -/
def qminList (h : Q) (t : List Q) : Q := t.foldl (fun a b => if b < a then b else a) h

/-- Maximum of a non-empty list of rationals, as Python's `max`. -/
def qmaxList (h : Q) (t : List Q) : Q := t.foldl (fun a b => if a < b then b else a) h

/-- Decimal rendering of a rational for zone labels; Python string formatting
of floats is not modelled beyond integral values, which is all the zone
labels ever hold. -/
def qRepr (q : Q) : String := if q.den = 1 then toString q.num else toString q.num ++ "/" ++ toString q.den

/-- Embedding of `DataTransformer._find_zone_by_fc`
(data_transformer.py:395-417): inclusive truncated bounds at ±2 percent of
the target, gathering every bucket whose `FC` is truthy and within bounds,
and spanning from the earliest to the latest matching time. -/
def find_zone_by_fc (aggregated : List AggRec) (fc_target : Q) (name color : String) :
    Option ZoneSeuil :=
  let fc_min := qtrunc (fc_target * (1 - mkQ 2 100))
  let fc_max := qtrunc (fc_target * (1 + mkQ 2 100))
  let matching_times := aggregated.filterMap fun m =>
    match lookupKV "FC" m.fields with
    | some fc =>
        if fc ≠ 0 ∧ qofInt fc_min ≤ fc ∧ fc ≤ qofInt fc_max then some m.t_seconds
        else Option.none
    | Option.none => Option.none
  match matching_times with
  | [] => Option.none
  | t0 :: ts =>
    some { nom := name, couleur := color, fc_min := some fc_min, fc_max := some fc_max,
           temps_debut_sec := some (qminList t0 ts), temps_fin_sec := some (qmaxList t0 ts),
           label := name ++ "\n[" ++ toString fc_min ++ "-" ++ toString fc_max ++ "] bpm" }

/-- The VO2max zone of `_build_zones_seuils` (data_transformer.py:377-391):
the first bucket whose `FC` is truthy and at least 98 percent of the manual
maximum heart rate. -/
def find_vo2max_zone (aggregated : List AggRec) (fc_max : Q) : Option ZoneSeuil :=
  (aggregated.find? fun m =>
    match lookupKV "FC" m.fields with
    | some fc => fc ≠ 0 && fc_max * mkQ 98 100 ≤ fc
    | Option.none => false).map fun m =>
      { nom := "VO2_max", couleur := "red", fc := some fc_max, temps_sec := some m.t_seconds,
        label := "VO2Max\nFC=" ++ qRepr fc_max }

/-- Embedding of `DataTransformer._build_zones_seuils`
(data_transformer.py:357-393); each threshold contributes a zone only when
its heart rate is truthy and some bucket matches. -/
def build_zones_seuils (aggregated : List AggRec) (seuils : Seuils) : List ZoneSeuil :=
  (match seuils.sv1.fc with
   | some fc => if fc ≠ 0 then (find_zone_by_fc aggregated fc "SV1" "orange").toList else []
   | Option.none => []) ++
  (match seuils.sv2.fc with
   | some fc => if fc ≠ 0 then (find_zone_by_fc aggregated fc "SV2" "purple").toList else []
   | Option.none => []) ++
  (match seuils.vo2_max.fc_max with
   | some fcm => if fcm ≠ 0 then (find_vo2max_zone aggregated fcm).toList else []
   | Option.none => [])

/-! ## Graph assembly and the transform entry point -/

/-- One curve of `_build_graphiques` (data_transformer.py:240-294): emitted
only when some bucket has the key, with `None` buckets plotted as `0`. -/
def mkCurve (aggregated : List AggRec) (time_values : List Q) (key name colour : String)
    (dash : Option String) : List GraphCurve :=
  let vals := aggregated.map fun m => lookupKV key m.fields
  if vals.any Option.isSome then
    [{ nom := name, couleur := colour, temps_secondes := time_values,
       valeurs := vals.map (fun v => v.getD 0), dash := dash }]
  else []

/-- Embedding of `DataTransformer._build_graphiques`
(data_transformer.py:225-305); the empty dict returned when there are no
measurements is `Option.none`. -/
def build_graphiques (measurements : List Meas) (seuils : Seuils) :
    Except PyErr (Option Graphiques) :=
  if measurements = [] then Except.ok Option.none
  else do
    let aggregated ← aggregate_by_interval measurements GRAPH_INTERVAL_SECONDS
    let time_values := aggregated.map (·.t_seconds)
    let graph1 : Graph :=
      { titre := "Heart Rate, V\x27O2 and V\x27CO2 Evolution"
        courbes := mkCurve aggregated time_values "FC" "FC (bpm)" (graphColor "FC") Option.none
          ++ mkCurve aggregated time_values "V\x27O2" "V\x27O2 (L/min)" (graphColor "V\x27O2")
            Option.none }
    let graph2 : Graph :=
      { titre := "V\x27E, RER and Breathing Frequency Evolution"
        courbes := mkCurve aggregated time_values "V\x27E" "V\x27E (L/min)" (graphColor "V\x27E")
            Option.none
          ++ mkCurve aggregated time_values "BF" "BF (/min)" (graphColor "BF") Option.none
          ++ mkCurve aggregated time_values "RER" "RER" (graphColor "RER") (some "dot") }
    Except.ok (some { graphique_1 := graph1, graphique_2 := graph2,
                      zones_seuils := build_zones_seuils aggregated seuils })

/-- Embedding of `DataTransformer.transform` (data_transformer.py:17-75). -/
def transform (xml_data : XmlData) (manual_input : ManualInput) : Except PyErr TestResult := do
  let last_name := (lookupKV "Nom" xml_data.patient_data).getD xml_data.filename_data.last_name
  let first_name :=
    (lookupKV "Prénom" xml_data.patient_data).getD xml_data.filename_data.first_name
  let athlete_name := String.mk (stripL (last_name ++ " " ++ first_name).data)
  let seuils := build_seuils xml_data.summary_data manual_input
  let graphiques ← build_graphiques xml_data.measurements seuils
  Except.ok
    { user_id := manual_input.email.getD ""
      athlete_name := athlete_name
      test_date := xml_data.filename_data.date
      test_type := "VO2max"
      consentements := {}
      seuils := seuils
      protocole := build_protocole manual_input
      test_lactate := build_test_lactate manual_input
      observations_lactate := manual_input.observations_lactate.getD ""
      patient_info := build_patient_info xml_data manual_input
      conseils_entrainements := manual_input.conseils_entrainements.getD ""
      graphiques := graphiques
      logos := [("logo_gauche", "assets/logos/logo1.png"),
                ("logo_droit", "assets/logos/logo1.png")]
      partenaires := { titre := "Nos Partenaires", logos := [] } }

instance {e a : Type} [DecidableEq e] [DecidableEq a] : DecidableEq (Except e a) := fun x y =>
  match x, y with
  | Except.ok v, Except.ok w =>
    if h : v = w then Decidable.isTrue (congrArg Except.ok h)
    else Decidable.isFalse (fun he => h (Except.ok.inj he))
  | Except.error v, Except.error w =>
    if h : v = w then Decidable.isTrue (congrArg Except.error h)
    else Decidable.isFalse (fun he => h (Except.error.inj he))
  | Except.ok _, Except.error _ => Decidable.isFalse (fun he => Except.noConfusion he)
  | Except.error _, Except.ok _ => Decidable.isFalse (fun he => Except.noConfusion he)

/-! ## The end-to-end scenario of claim C1

The synthetic parsed document of the spec's end-to-end test: patient
DOE/Jane, a summary `v` row with maximum absolute value 15, and three
samples at t = 0 s, 15 s, 30 s with heart rates 100, 150, 170, merged with
manual input email `a@b.com` and SV1 heart rate 150. -/

/-- The parsed document of the C1 scenario. -/
def xmlC1 : XmlData :=
  { patient_data := [("Nom", "DOE"), ("Prénom", "Jane")]
    summary_data := [("v", [("Valeurs Maximales Absolues", PyVal.num 15)])]
    measurements :=
      [ { t_seconds := 0, fields := [("t", PyVal.str "0:00:00"), ("FC", PyVal.num 100)] },
        { t_seconds := 15, fields := [("t", PyVal.str "0:00:15"), ("FC", PyVal.num 150)] },
        { t_seconds := 30, fields := [("t", PyVal.str "0:00:30"), ("FC", PyVal.num 170)] } ] }

/-- The manual input of the C1 scenario. -/
def miC1 : ManualInput :=
  { email := some "a@b.com"
    stress_test_results := { thresholds_sv1 := { hr_bpm := some 150 } } }

/-- The single SV1 zone the code produces in the C1 scenario: the sample at
t = 15 s with heart rate 150 is averaged into the bucket labelled 30, so the
zone spans [30, 30], not [15, 15]. -/
def zoneC1 : ZoneSeuil :=
  { nom := "SV1", couleur := "orange", fc_min := some 147, fc_max := some 153,
    temps_debut_sec := some 30, temps_fin_sec := some 30, label := "SV1\n[147-153] bpm" }

/-- C1 counterexample: in the spec's end-to-end scenario the transform does
produce exactly one SV1 zone, but it is anchored at t = 30 s, not at
t = 15 s as the claim states: the bucket labels of `_aggregate_by_interval`
are right interval endpoints of left-closed intervals, so the t = 15 sample
falls into the bucket labelled 30. -/
theorem C1_counterexample :
    (transform xmlC1 miC1).map (fun r => r.graphiques.map Graphiques.zones_seuils) =
      Except.ok (some [zoneC1]) ∧
    zoneC1.temps_debut_sec = some 30 ∧ zoneC1.temps_fin_sec = some 30 ∧
    zoneC1.temps_debut_sec ≠ some 15 ∧ zoneC1.temps_fin_sec ≠ some 15 := by
  with_unfolding_all decide

/-- C1 amended: the C1 scenario produces a `TestResult` with
`seuils.VMA.valeur == 15.0`, `athlete_name == "DOE Jane"`, and exactly one
SV1 zone — anchored at t = 30 s, the label of the aggregation bucket that
contains the t = 15 s sample matching 150 ± 2 percent. -/
theorem C1_amended :
    (transform xmlC1 miC1).map
      (fun r => (r.athlete_name, r.seuils.vma.valeur, r.graphiques.map Graphiques.zones_seuils)) =
    Except.ok ("DOE Jane", some 15, some [zoneC1]) := by
  with_unfolding_all decide

/-! ## Claim C3: the `pourcentage_vma` derivation -/

/-- Modelled from the spec: the claim's `pourcentage_vma` rule,
`round(pace_km_h / vma_km_h * 100)` as an integer (Python 3 `round`, i.e.
round half to even) when both operands are present and non-zero. -/
def pourcentageVma_spec (allure max_speed : Option Q) : Option ℤ :=
  match allure, max_speed with
  | some a, some ms =>
      if a ≠ 0 ∧ ms ≠ 0 then some (roundHalfEvenZ ((a / ms) * 100)) else Option.none
  | _, _ => Option.none

/-- The summary table used in the C3 counterexample: maximum recorded speed
8 km/h. -/
def sdC3 : List (String × List (String × PyVal)) :=
  [("v", [("Valeurs Maximales Absolues", PyVal.num 8)])]

/-- The manual input of the C3 counterexample: SV1 pace 7 km/h. -/
def miC3 : ManualInput :=
  { stress_test_results := { thresholds_sv1 := { pace_km_h := some 7 } } }

/-- C3 counterexample: with pace 7 and maximum speed 8 (both present and
non-zero), `7 / 8 * 100 = 87.5`; the claim's `round` gives 88, but the code
computes `int(...)`, which truncates toward zero and gives 87. -/
theorem C3_counterexample :
    (build_seuils sdC3 miC3).sv1.pourcentage_vma = some 87 ∧
    pourcentageVma_spec (some 7) (some 8) = some 88 ∧
    (build_seuils sdC3 miC3).sv1.pourcentage_vma ≠ pourcentageVma_spec (some 7) (some 8) := by
  with_unfolding_all decide

/-- C3 amended: for SV1 and SV2, `transform` (through `_build_seuils`) sets
`pourcentage_vma` to `int(pace_km_h / vma_km_h * 100)` — truncation toward
zero, not `round` — exactly when both the threshold's pace and the VMA
maximum recorded speed are present and non-zero, and otherwise leaves the
field present with value null; in particular pace 12 with VMA 15 yields 80,
and an absent pace yields a present null field. -/
theorem C3_amended :
    (∀ (sd : List (String × List (String × PyVal))) (mi : ManualInput),
      (build_seuils sd mi).sv1.pourcentage_vma =
        (match mi.stress_test_results.thresholds_sv1.pace_km_h, vmaFromSummary sd with
         | some a, some ms =>
             if a ≠ 0 ∧ ms ≠ 0 then some (qtrunc ((a / ms) * 100)) else Option.none
         | _, _ => Option.none) ∧
      (build_seuils sd mi).sv2.pourcentage_vma =
        (match mi.stress_test_results.thresholds_sv2.pace_km_h, vmaFromSummary sd with
         | some a, some ms =>
             if a ≠ 0 ∧ ms ≠ 0 then some (qtrunc ((a / ms) * 100)) else Option.none
         | _, _ => Option.none)) ∧
    (build_seuils [("v", [("Valeurs Maximales Absolues", PyVal.num 15)])]
      { stress_test_results := { thresholds_sv1 := { pace_km_h := some 12 } } }).sv1.pourcentage_vma
      = some 80 ∧
    (build_seuils [("v", [("Valeurs Maximales Absolues", PyVal.num 15)])]
      { }).sv1.pourcentage_vma = Option.none := by
  refine ⟨fun sd mi => ⟨rfl, rfl⟩, ?_, ?_⟩ <;> with_unfolding_all decide

/-! ## Claim C9: the lactate test -/

/-- An entry contributes a measurement exactly when both its fields are
non-null. -/
theorem lactateComplete_ne_none (e : LactateEntry) :
    lactateComplete e ≠ Option.none ↔
      e.speed ≠ Option.none ∧ e.lactate_mmol_l ≠ Option.none := by
  obtain ⟨s, l⟩ := e
  cases s <;> cases l <;> simp [lactateComplete]

/-- C9: `test_lactate.actif` is true iff at least one entry of the manual
lactate profile has both `speed` and `lactate_mmol_l` non-null, and
`mesures` holds exactly the complete entries, each carried through unchanged
as a `{vitesse, lactate}` pair (the filter `lactateComplete`); with zero
complete pairs this gives `actif = false` and `mesures = []`, with one
complete pair `actif = true` with that single entry. -/
theorem C9_test_lactate (mi : ManualInput) :
    ((build_test_lactate mi).actif = true ↔
      ∃ e ∈ mi.stress_test_results.lactate_profile,
        e.speed ≠ Option.none ∧ e.lactate_mmol_l ≠ Option.none) ∧
    (build_test_lactate mi).mesures =
      mi.stress_test_results.lactate_profile.filterMap lactateComplete := by
  refine ⟨?_, rfl⟩
  have h : (build_test_lactate mi).actif = true ↔
      mi.stress_test_results.lactate_profile.filterMap lactateComplete ≠ [] := by
    simp [build_test_lactate]
  rw [h, Ne, List.filterMap_eq_nil_iff]
  push_neg
  exact exists_congr fun e => and_congr_right fun _ => lactateComplete_ne_none e

/-! ## Claim C10: the consent block -/

/-- C10: every `TestResult` that `transform` returns carries the default
consent block `{risques: false, donnees: false, anonyme: false}`: `transform`
never reads consent data from the XML or the manual input. -/
theorem C10_consentements_default (xml_data : XmlData) (manual_input : ManualInput)
    (r : TestResult) (h : transform xml_data manual_input = Except.ok r) :
    r.consentements = { risques := false, donnees := false, anonyme := false } := by
  simp only [transform] at h
  cases hg : build_graphiques xml_data.measurements
      (build_seuils xml_data.summary_data manual_input) with
  | error e =>
    rw [hg] at h
    exact absurd h (by simp [Bind.bind, Except.bind])
  | ok g =>
    rw [hg] at h
    simp only [Bind.bind, Except.bind] at h
    cases Except.ok.inj h
    rfl

/-- C10 witness: the claim theorem applied to the empty document and empty
manual input. -/
theorem C10_witness :
    ∃ r, transform {} {} = Except.ok r ∧
      r.consentements = { risques := false, donnees := false, anonyme := false } :=
  ⟨_, rfl, C10_consentements_default {} {} _ rfl⟩

/-! ## Claim C8: totality of the transform -/

/-- A dynamic value that is a number or `None` (not a string). -/
def isNumOrNone : PyVal → Bool
  | PyVal.str _ => false
  | _ => true

/-- A dynamic value that is a number. -/
def isNumV : PyVal → Bool
  | PyVal.num _ => true
  | _ => false

/-- A measurement whose non-excluded fields hold numbers or `None` only —
what the aggregation can consume without raising. -/
def measNumeric (m : Meas) : Prop :=
  ∀ kv ∈ m.fields, kv.1 ∉ excludedKeys → isNumOrNone kv.2 = true

instance (m : Meas) : Decidable (measNumeric m) := by
  unfold measNumeric; infer_instance

/-- Reduction of an `Except` bind on a success value. -/
@[simp] theorem except_ok_bind {e a b : Type} (x : a) (f : a → Except e b) :
    (Except.ok x : Except e a) >>= f = f x := rfl

/-- Reduction of an `Except` bind on an error value. -/
@[simp] theorem except_error_bind {e a b : Type} (err : e) (f : a → Except e b) :
    (Except.error err : Except e a) >>= f = Except.error err := rfl

/-- Summation never fails over numeric values. -/
theorem sumValsAux_ok (vs : List PyVal) (h : ∀ v ∈ vs, isNumV v = true) (acc : Q) :
    ∃ q, sumValsAux acc vs = Except.ok q := by
  induction vs generalizing acc with
  | nil => exact ⟨acc, rfl⟩
  | cons v rest ih =>
    cases v with
    | num q => exact ih (fun w hw => h w (List.mem_cons_of_mem _ hw)) _
    | str s => exact absurd (h _ (List.mem_cons_self _ _)) (by simp [isNumV])
    | none => exact absurd (h _ (List.mem_cons_self _ _)) (by simp [isNumV])

/-- The per-bucket averaging never fails when every collected value is a
number or `None`. -/
theorem mkAvgFields_ok (cv : List (String × List PyVal))
    (h : ∀ kv ∈ cv, ∀ v ∈ kv.2, isNumOrNone v = true) :
    ∃ fs, mkAvgFields cv = Except.ok fs := by
  induction cv with
  | nil => exact ⟨[], rfl⟩
  | cons kv rest ih =>
    obtain ⟨k, vs⟩ := kv
    obtain ⟨fs, hfs⟩ := ih fun kv2 h2 => h kv2 (List.mem_cons_of_mem _ h2)
    by_cases h1 : vs = []
    · exact ⟨fs, by rw [mkAvgFields, if_pos h1]; exact hfs⟩
    · by_cases h2 : vs.filter notNoneV = []
      · refine ⟨fs, ?_⟩
        rw [mkAvgFields, if_neg h1]
        simp only [if_pos h2]
        exact hfs
      · have hnum : ∀ v ∈ vs.filter notNoneV, isNumV v = true := by
          intro v hv
          have hv2 := List.mem_filter.mp hv
          have hval := h (k, vs) (List.mem_cons_self _ _) v hv2.1
          cases v with
          | num q => rfl
          | str s => simp [isNumOrNone] at hval
          | none => simp [notNoneV] at hv2
        obtain ⟨q, hq⟩ := sumValsAux_ok _ hnum 0
        refine ⟨(k, pyRound2 (q / qofNat (vs.filter notNoneV).length)) :: fs, ?_⟩
        rw [mkAvgFields, if_neg h1]
        simp only [if_neg h2]
        rw [show sumVals (vs.filter notNoneV) = Except.ok q from hq, except_ok_bind, hfs,
          except_ok_bind]

/-- `mkAvgRec` never fails when every collected value is a number or `None`. -/
theorem mkAvgRec_ok (ci : ℤ) (cv : List (String × List PyVal))
    (h : ∀ kv ∈ cv, ∀ v ∈ kv.2, isNumOrNone v = true) :
    ∃ r, mkAvgRec ci cv = Except.ok r := by
  obtain ⟨fs, hfs⟩ := mkAvgFields_ok cv h
  exact ⟨_, by rw [mkAvgRec, hfs, except_ok_bind]⟩

/-- `accumField` preserves value numericity. -/
theorem accumField_numeric (cv : List (String × List PyVal)) (k : String) (v : PyVal)
    (hcv : ∀ kv ∈ cv, ∀ w ∈ kv.2, isNumOrNone w = true) (hv : isNumOrNone v = true) :
    ∀ kv ∈ accumField cv k v, ∀ w ∈ kv.2, isNumOrNone w = true := by
  induction cv with
  | nil =>
    intro kv hkv w hw
    simp [accumField] at hkv
    subst hkv
    simp at hw
    subst hw
    exact hv
  | cons kv0 rest ih =>
    obtain ⟨k0, vs0⟩ := kv0
    intro kv hkv w hw
    by_cases hk : k0 = k
    · simp [accumField, hk] at hkv
      rcases hkv with hkv | hkv
      · subst hkv
        simp at hw
        rcases hw with hw | hw
        · exact hcv (k0, vs0) (by simp [hk]) w (by simpa [hk] using hw)
        · subst hw; exact hv
      · exact hcv kv (List.mem_cons_of_mem _ hkv) w hw
    · simp [accumField, hk] at hkv
      rcases hkv with hkv | hkv
      · subst hkv
        exact hcv (k0, vs0) (List.mem_cons_self _ _) w hw
      · exact ih (fun kv2 h2 => hcv kv2 (List.mem_cons_of_mem _ h2)) kv hkv w hw

/-- `accumMeas` preserves value numericity for numeric measurements. -/
theorem accumMeas_numeric (m : Meas) (hm : measNumeric m) :
    ∀ cv, (∀ kv ∈ cv, ∀ w ∈ kv.2, isNumOrNone w = true) →
    ∀ kv ∈ accumMeas cv m, ∀ w ∈ kv.2, isNumOrNone w = true := by
  unfold accumMeas
  have main : ∀ (fs : List (String × PyVal)),
      (∀ kv ∈ fs, kv.1 ∉ excludedKeys → isNumOrNone kv.2 = true) →
      ∀ cv, (∀ kv ∈ cv, ∀ w ∈ kv.2, isNumOrNone w = true) →
      ∀ kv ∈ fs.foldl
        (fun cv2 kv => if kv.1 ∈ excludedKeys then cv2 else accumField cv2 kv.1 kv.2) cv,
        ∀ w ∈ kv.2, isNumOrNone w = true := by
    intro fs
    induction fs with
    | nil => intro _ cv hcv; exact hcv
    | cons f rest ih =>
      intro hfs cv hcv
      simp only [List.foldl_cons]
      by_cases hf : f.1 ∈ excludedKeys
      · simp only [if_pos hf]
        exact ih (fun kv h2 => hfs kv (List.mem_cons_of_mem _ h2)) cv hcv
      · simp only [if_neg hf]
        exact ih (fun kv h2 => hfs kv (List.mem_cons_of_mem _ h2)) _
          (accumField_numeric cv f.1 f.2 hcv (hfs f (List.mem_cons_self _ _) hf))
  exact fun cv hcv => main m.fields hm cv hcv

/-- The aggregation loop never fails over numeric measurements. -/
theorem aggLoop_ok (iv : ℤ) (ms : List Meas) (hms : ∀ m ∈ ms, measNumeric m) :
    ∀ ci cv count, (∀ kv ∈ cv, ∀ w ∈ kv.2, isNumOrNone w = true) →
    ∃ l, aggLoop iv ms ci cv count = Except.ok l := by
  induction ms with
  | nil =>
    intro ci cv count hcv
    by_cases hc : 0 < count
    · obtain ⟨r, hr⟩ := mkAvgRec_ok ci cv hcv
      exact ⟨[r], by simp [aggLoop, hc, hr]⟩
    · exact ⟨[], by simp [aggLoop, hc]⟩
  | cons m rest ih =>
    intro ci cv count hcv
    have hm : measNumeric m := hms m (List.mem_cons_self _ _)
    have hrest : ∀ m2 ∈ rest, measNumeric m2 := fun m2 h2 => hms m2 (List.mem_cons_of_mem _ h2)
    have hnew : ∀ kv ∈ accumMeas [] m, ∀ w ∈ kv.2, isNumOrNone w = true :=
      accumMeas_numeric m hm [] (by simp)
    have hcont : ∀ kv ∈ accumMeas cv m, ∀ w ∈ kv.2, isNumOrNone w = true :=
      accumMeas_numeric m hm cv hcv
    by_cases hi : bucketOf iv m.t_seconds ≠ ci
    · by_cases hc : 0 < count
      · obtain ⟨r, hr⟩ := mkAvgRec_ok ci cv hcv
        obtain ⟨l, hl⟩ := ih hrest (bucketOf iv m.t_seconds) (accumMeas [] m) 1 hnew
        exact ⟨r :: l, by simp [aggLoop, hi, hc, hr, hl]⟩
      · obtain ⟨l, hl⟩ := ih hrest (bucketOf iv m.t_seconds) (accumMeas [] m) 1 hnew
        exact ⟨l, by simp [aggLoop, hi, hc, hl]⟩
    · obtain ⟨l, hl⟩ := ih hrest ci (accumMeas cv m) (count + 1) hcont
      exact ⟨l, by simp [aggLoop, hi, hl]⟩

/-- `build_graphiques` never fails over numeric measurements. -/
theorem build_graphiques_ok (ms : List Meas) (seuils : Seuils)
    (hms : ∀ m ∈ ms, measNumeric m) :
    ∃ g, build_graphiques ms seuils = Except.ok g := by
  by_cases he : ms = []
  · exact ⟨Option.none, by simp [build_graphiques, he]⟩
  · obtain ⟨l, hl⟩ := aggLoop_ok GRAPH_INTERVAL_SECONDS ms hms 0 [] 0 (by simp)
    simp only [build_graphiques, if_neg he, aggregate_by_interval, hl, except_ok_bind]
    exact ⟨_, rfl⟩

/-- The parsed document of the C8 counterexample: one measurement carrying a
string value in a non-excluded column, as the parser's coercion fallback
produces for any non-numeric cell. -/
def xmlC8 : XmlData :=
  { measurements := [ { t_seconds := 0, fields := [("Note", PyVal.str "abc")] } ] }

/-- C8 counterexample: `transform` is not total on every parsed document —
a measurement column holding a string (the parser's fallback for
non-numeric cells) reaches `sum` inside `_aggregate_by_interval` and raises
`TypeError`, so the claim's "for every parsed document" fails even with a
fully absent manual input. -/
theorem C8_counterexample :
    transform xmlC8 {} = Except.error PyErr.typeError := by
  with_unfolding_all decide

/-- C8 amended: for every parsed document whose measurement fields outside
the excluded time/phase/marker columns hold numbers or nulls (never the
parser's string fallback), and every manual input with any or all optional
fields absent, `transform` completes without raising and returns a
`TestResult`; every optional manual-input field is read through an optional
get with its default. -/
theorem C8_amended (xml_data : XmlData) (manual_input : ManualInput)
    (h : ∀ m ∈ xml_data.measurements, measNumeric m) :
    ∃ r, transform xml_data manual_input = Except.ok r := by
  obtain ⟨g, hg⟩ := build_graphiques_ok xml_data.measurements
    (build_seuils xml_data.summary_data manual_input) h
  simp only [transform]
  rw [hg]
  exact ⟨_, rfl⟩

/-- The well-behaved document of the C8 witness. -/
def xmlC8W : XmlData :=
  { measurements := [ { t_seconds := 0, fields := [("t", PyVal.str "0:00:00"),
      ("FC", PyVal.num 100)] } ] }

/-- C8 witness: the amended theorem applied to a concrete numeric document
and the empty manual input. -/
theorem C8_witness :
    (∀ m ∈ xmlC8W.measurements, measNumeric m) ∧
    ∃ r, transform xmlC8W {} = Except.ok r :=
  ⟨by decide, C8_amended xmlC8W {} (by decide)⟩

/-! ## Claim C4: blank-row termination in key/value extraction -/

/-- Modelled from the spec: the claim's termination rule for key/value
extraction — an entirely blank row ends the section exactly when the row
after it is absent, entirely blank, or contains a marker word. -/
def parse_kv_loop_spec (acc : List (String × String)) :
    List (List String) → List (String × String)
  | [] => acc
  | cells :: rest =>
    if isBlankRow cells then
      match rest with
      | next :: _ =>
          if isBlankRow next || kvTerminates next then acc else parse_kv_loop_spec acc rest
      | [] => acc
    else if 2 ≤ cells.length ∧ cells.headD "" ≠ "" then
      parse_kv_loop_spec (insertKV (cells.headD "") (kvValue cells) acc) rest
    else parse_kv_loop_spec acc rest

/-- Modelled from the spec: `parse_key_value_pairs` under the claim's
termination rule. -/
def parse_key_value_pairs_spec (rows : List (List String)) (start_idx : ℕ) :
    List (String × String) :=
  parse_kv_loop_spec [] (rows.drop (start_idx + 1))

/-- The grid of the C4 counterexample: a section heading, two blank rows,
then a key/value row with no marker word anywhere. -/
def gridC4 : List (List String) := [["Section"], [""], [""], ["k", "x", "v"]]

/-- C4 counterexample: the claim says a blank row followed by another
entirely blank row terminates extraction; the code only stops when the
lookahead row contains a marker word, so it walks across the double blank
and still extracts the `k` row, while the claim's rule would have stopped
with an empty result. -/
theorem C4_counterexample :
    parse_key_value_pairs gridC4 0 Option.none = [("k", "v")] ∧
    parse_key_value_pairs_spec gridC4 0 = [] ∧
    parse_key_value_pairs gridC4 0 Option.none ≠ parse_key_value_pairs_spec gridC4 0 := by
  with_unfolding_all decide

/-- C4 amended: in key/value extraction (patient, bio, test metadata — all
called with no explicit end section), an entirely blank row terminates the
section if and only if the row after it exists, is non-empty, and contains
one of the marker words "Données", "Tableau", "Valeur" in a non-empty cell
(`kvTerminates`); in every other case — lone blank row, blank row followed
by a blank row, or a trailing blank row — extraction skips the blank row and
continues. -/
theorem C4_amended (cells : List String) (rest : List (List String))
    (acc : List (String × String)) (hblank : isBlankRow cells = true) :
    (parse_kv_loop Option.none acc (cells :: rest) =
      match rest with
      | next :: _ => if kvTerminates next then acc else parse_kv_loop Option.none acc rest
      | [] => acc) ∧
    (∀ next rest2, rest = next :: rest2 → kvTerminates next = false →
      parse_kv_loop Option.none acc (cells :: rest) = parse_kv_loop Option.none acc rest) := by
  constructor
  · simp only [parse_kv_loop, hblank]
    cases rest with
    | nil => simp [parse_kv_loop]
    | cons next rest2 => simp
  · intro next rest2 hr hterm
    subst hr
    simp [parse_kv_loop, hblank, hterm]

/-- C4 witness: the amended theorem applied to a blank row followed by a
marker-free key/value row — extraction continues. -/
theorem C4_witness :
    isBlankRow [""] = true ∧
    parse_kv_loop Option.none [] ([""] :: [["k", "x", "v"]]) =
      parse_kv_loop Option.none [] [["k", "x", "v"]] :=
  ⟨by decide, (C4_amended [""] [["k", "x", "v"]] [] (by decide)).2 ["k", "x", "v"] [] rfl
    (by decide)⟩

/-! ## Claim C5: end of the measurement stream -/

/-- Modelled from the spec: the claim's data-row rule — the first row whose
first cell fails the time pattern or is empty ends the stream. -/
def parse_meas_rows_spec (headers : List String) : List (List String) → List Meas
  | [] => []
  | cells :: rest =>
    match cells with
    | [] => []
    | c0 :: _ =>
      if c0 = "" then []
      else if startsWithTime c0 then
        buildMeasRow headers cells :: parse_meas_rows_spec headers rest
      else []

/-- The grid of the C5 counterexample: section heading, header row, units
row, a data row, an empty row, and another data row. -/
def gridC5 : List (List String) :=
  [["Measurement Data"], ["t", "FC"], ["s", "bpm"], ["0:00:01", "100"], [""], ["0:00:02", "200"]]

/-- C5 counterexample: the claim says the first row whose first cell is
empty ends the stream, so the row after the empty row would contribute
nothing; the code instead skips rows with an empty first cell and keeps
consuming, so the grid yields two records where the claim's rule yields
one. -/
theorem C5_counterexample :
    parse_measurement_data gridC5 =
      [ { t_seconds := 1, fields := [("t", PyVal.str "0:00:01"), ("FC", PyVal.num 100)] },
        { t_seconds := 2, fields := [("t", PyVal.str "0:00:02"), ("FC", PyVal.num 200)] } ] ∧
    parse_meas_rows_spec ["t", "FC"] [["0:00:01", "100"], [""], ["0:00:02", "200"]] =
      [ { t_seconds := 1, fields := [("t", PyVal.str "0:00:01"), ("FC", PyVal.num 100)] } ] ∧
    (parse_measurement_data gridC5).length ≠ 1 := by
  with_unfolding_all decide

/-- C5 amended: in the measurement data loop, a row with no cells or an
empty first cell is skipped (the stream continues with the remaining rows);
a row whose non-empty first cell fails the time pattern `\d+:\d+:\d+` ends
the stream, so no row after it contributes; and a row whose first cell
matches the pattern contributes one record. -/
theorem C5_amended (headers : List String) (cells : List String) (rest : List (List String)) :
    (cells.headD "" = "" →
      parse_meas_rows headers (cells :: rest) = parse_meas_rows headers rest) ∧
    (∀ c0 cs, cells = c0 :: cs → c0 ≠ "" → startsWithTime c0 = false →
      parse_meas_rows headers (cells :: rest) = []) ∧
    (∀ c0 cs, cells = c0 :: cs → c0 ≠ "" → startsWithTime c0 = true →
      parse_meas_rows headers (cells :: rest) =
        buildMeasRow headers cells :: parse_meas_rows headers rest) := by
  refine ⟨?_, ?_, ?_⟩
  · intro h
    cases cells with
    | nil => simp [parse_meas_rows]
    | cons c0 cs =>
      simp only [List.headD_cons] at h
      simp [parse_meas_rows, h]
  · intro c0 cs hc h0 hst
    subst hc
    simp [parse_meas_rows, h0, hst]
  · intro c0 cs hc h0 hst
    subst hc
    simp [parse_meas_rows, h0, hst]

/-- C5 witness: the amended theorem applied to an empty-first-cell row
(skipped) and to a non-time row (stream ends). -/
theorem C5_witness :
    parse_meas_rows ["t", "FC"] ([""] :: [["0:00:02", "200"]]) =
      parse_meas_rows ["t", "FC"] [["0:00:02", "200"]] ∧
    parse_meas_rows ["t", "FC"] (["x", "1"] :: [["0:00:02", "200"]]) = [] :=
  ⟨(C5_amended ["t", "FC"] [""] [["0:00:02", "200"]]).1 rfl,
   (C5_amended ["t", "FC"] ["x", "1"] [["0:00:02", "200"]]).2.1 "x" ["1"] rfl (by decide)
     (by decide)⟩

/-! ## Claim C6: value coercion -/

/-- Modelled from the spec: coercion as the claim words it — after the
empty/sentinel check and the cleanup, attempt an integer parse and then a
float parse, returning the original string when both fail. -/
def convert_value_spec (value : String) : PyVal :=
  if value = "" ∨ value = "-" then PyVal.none
  else
    let value_clean := (replaceChar ',' '.' value.data).filter (fun c => c ≠ ' ')
    match parseIntQ value_clean with
    | some n => PyVal.num (qofInt n)
    | Option.none =>
      match parseFloatQ value_clean with
      | some q => PyVal.num q
      | Option.none => PyVal.str value

/-- C6 counterexample: on `"1e1"` the claim's int-then-float order yields
the float `10.0` (the float parse accepts exponent notation), but the code
only attempts a float parse when the cleaned string contains a dot, so it
falls back to the original string. -/
theorem C6_counterexample :
    convert_value "1e1" = PyVal.str "1e1" ∧
    convert_value_spec "1e1" = PyVal.num 10 ∧
    convert_value "1e1" ≠ convert_value_spec "1e1" := by
  with_unfolding_all decide

/-- C6 amended: value coercion returns `None` when the string is empty or
the sentinel `"-"`; otherwise it replaces comma decimal separators with dots
and strips internal spaces, then attempts exactly one numeric parse — a
float parse when the cleaned string contains a dot, an integer parse
otherwise — and if that parse fails returns the original string unchanged;
in particular coerce("3,14") == 3.14. -/
theorem C6_amended :
    (∀ value : String, value = "" ∨ value = "-" → convert_value value = PyVal.none) ∧
    (∀ value : String, ¬(value = "" ∨ value = "-") →
      convert_value value =
        (let clean := (replaceChar ',' '.' value.data).filter (fun c => c ≠ ' ')
         if clean.contains '.' then ((parseFloatQ clean).map PyVal.num).getD (PyVal.str value)
         else ((parseIntQ clean).map (fun n => PyVal.num (qofInt n))).getD (PyVal.str value))) ∧
    convert_value "3,14" = PyVal.num (mkQ 157 50) := by
  refine ⟨?_, ?_, by with_unfolding_all decide⟩
  · intro v h
    simp [convert_value, h]
  · intro v h
    simp only [convert_value, if_neg h]
    by_cases hc : ((replaceChar ',' '.' v.data).filter (fun c => c ≠ ' ')).contains '.'
    · simp only [if_pos hc]
      cases hp : parseFloatQ ((replaceChar ',' '.' v.data).filter (fun c => c ≠ ' ')) <;>
        simp [hp]
    · simp only [if_neg hc]
      cases hp : parseIntQ ((replaceChar ',' '.' v.data).filter (fun c => c ≠ ' ')) <;>
        simp [hp]

/-- C6 witness: the amended theorem applied to the sentinel and the empty
string. -/
theorem C6_witness :
    convert_value "-" = PyVal.none ∧ convert_value "" = PyVal.none :=
  ⟨C6_amended.1 "-" (Or.inr rfl), C6_amended.1 "" (Or.inl rfl)⟩

/-! ## Claim C7: the filename round-trip -/

/-- The character list of a filename built from components exactly as the
fixed pattern encodes them. -/
def encodeFilenameL (nom prenom year month day hour minute second : List Char) : List Char :=
  'T' :: 'C' :: 'P' :: '_' :: '_' ::
    (nom ++ '_' :: prenom ++ '_' :: year ++ '.' :: month ++ '.' :: day
      ++ '_' :: hour ++ '.' :: minute ++ '.' :: second ++ '_' :: '.' :: 'x' :: 'm' :: 'l' :: [])

/-- The encoding of components into a filename
`TCP__<LASTNAME>_<Firstname>_<YYYY>.<MM>.<DD>_<HH>.<MM>.<SS>_.xml`. -/
def encodeFilename (nom prenom year month day hour minute second : List Char) : String :=
  String.mk (encodeFilenameL nom prenom year month day hour minute second)

/-- Greedy `takeWhile`/`dropWhile` stop exactly at the first character
outside the class. -/
theorem takeWhile_append_stop {p : Char → Bool} (l : List Char) (c : Char) (r : List Char)
    (hl : ∀ a ∈ l, p a = true) (hc : p c = false) :
    (l ++ c :: r).takeWhile p = l ∧ (l ++ c :: r).dropWhile p = c :: r := by
  induction l with
  | nil => simp [List.takeWhile_cons, List.dropWhile_cons, hc]
  | cons a as ih =>
    have ha := hl a (List.mem_cons_self _ _)
    have := ih fun x hx => hl x (List.mem_cons_of_mem _ hx)
    simp [List.takeWhile_cons, List.dropWhile_cons, ha, this.1, this.2]

/-- A fixed-width digit group is taken exactly. -/
theorem takeExactDigits_append (l r : List Char) (hl : ∀ c ∈ l, isDigitC c = true) :
    takeExactDigits l.length (l ++ r) = some (l, r) := by
  induction l with
  | nil => rfl
  | cons c cs ih =>
    have hc := hl c (List.mem_cons_self _ _)
    simp [takeExactDigits, hc, ih fun x hx => hl x (List.mem_cons_of_mem _ hx)]

/-- The regex model recovers the groups of an encoded filename. -/
theorem matchFilenameGroups_encode
    (nom prenom year month day hour minute second : List Char)
    (h1 : nom ≠ []) (h2 : ∀ c ∈ nom, isUpperAZ c = true)
    (h3 : prenom ≠ []) (h4 : ∀ c ∈ prenom, isNameLetter c = true)
    (h5 : year.length = 4) (h6 : ∀ c ∈ year, isDigitC c = true)
    (h7 : month.length = 2) (h8 : ∀ c ∈ month, isDigitC c = true)
    (h9 : day.length = 2) (h10 : ∀ c ∈ day, isDigitC c = true)
    (h11 : hour.length = 2) (h12 : ∀ c ∈ hour, isDigitC c = true)
    (h13 : minute.length = 2) (h14 : ∀ c ∈ minute, isDigitC c = true)
    (h15 : second.length = 2) (h16 : ∀ c ∈ second, isDigitC c = true) :
    matchFilenameGroups (encodeFilenameL nom prenom year month day hour minute second) =
      some (nom, prenom, year, month, day, hour, minute, second) := by
  obtain ⟨tw1, dw1⟩ := @takeWhile_append_stop isUpperAZ nom '_'
    (prenom ++ '_' :: year ++ '.' :: month ++ '.' :: day ++ '_' :: hour ++ '.' :: minute
      ++ '.' :: second ++ '_' :: '.' :: 'x' :: 'm' :: 'l' :: []) h2 (by decide)
  obtain ⟨tw2, dw2⟩ := @takeWhile_append_stop isNameLetter prenom '_'
    (year ++ '.' :: month ++ '.' :: day ++ '_' :: hour ++ '.' :: minute
      ++ '.' :: second ++ '_' :: '.' :: 'x' :: 'm' :: 'l' :: []) h4 (by decide)
  have e5 := takeExactDigits_append year
    ('.' :: month ++ '.' :: day ++ '_' :: hour ++ '.' :: minute
      ++ '.' :: second ++ '_' :: '.' :: 'x' :: 'm' :: 'l' :: []) h6
  have e7 := takeExactDigits_append month
    ('.' :: day ++ '_' :: hour ++ '.' :: minute
      ++ '.' :: second ++ '_' :: '.' :: 'x' :: 'm' :: 'l' :: []) h8
  have e9 := takeExactDigits_append day
    ('_' :: hour ++ '.' :: minute ++ '.' :: second ++ '_' :: '.' :: 'x' :: 'm' :: 'l' :: []) h10
  have e11 := takeExactDigits_append hour
    ('.' :: minute ++ '.' :: second ++ '_' :: '.' :: 'x' :: 'm' :: 'l' :: []) h12
  have e13 := takeExactDigits_append minute
    ('.' :: second ++ '_' :: '.' :: 'x' :: 'm' :: 'l' :: []) h14
  have e15 := takeExactDigits_append second ('_' :: '.' :: 'x' :: 'm' :: 'l' :: []) h16
  rw [h5] at e5
  rw [h7] at e7
  rw [h9] at e9
  rw [h11] at e11
  rw [h13] at e13
  rw [h15] at e15
  have hne1 : nom.isEmpty = false := by
    cases nom with
    | nil => exact absurd rfl h1
    | cons a l => rfl
  have hne2 : prenom.isEmpty = false := by
    cases prenom with
    | nil => exact absurd rfl h3
    | cons a l => rfl
  simp only [List.cons_append, List.append_assoc] at tw1 dw1 tw2 dw2 e5 e7 e9 e11 e13 e15
  simp only [encodeFilenameL, matchFilenameGroups, List.cons_append, List.append_assoc,
    tw1, dw1, hne1, Bool.false_eq_true, if_false, tw2, dw2, hne2, e5, e7, e9, e11, e13, e15]

/-- C7: the filename parser is a total function that round-trips the fixed
pattern — for every filename built from a non-empty uppercase last name, a
non-empty letter first name and digit groups of the encoded widths, it
recovers every field exactly as encoded, and for every filename the pattern
does not match it returns all-empty fields (it never raises: it is a total
function by construction). -/
theorem C7_filename_roundtrip :
    (∀ nom prenom year month day hour minute second : List Char,
      nom ≠ [] → (∀ c ∈ nom, isUpperAZ c = true) →
      prenom ≠ [] → (∀ c ∈ prenom, isNameLetter c = true) →
      year.length = 4 → (∀ c ∈ year, isDigitC c = true) →
      month.length = 2 → (∀ c ∈ month, isDigitC c = true) →
      day.length = 2 → (∀ c ∈ day, isDigitC c = true) →
      hour.length = 2 → (∀ c ∈ hour, isDigitC c = true) →
      minute.length = 2 → (∀ c ∈ minute, isDigitC c = true) →
      second.length = 2 → (∀ c ∈ second, isDigitC c = true) →
      parse_filename (encodeFilename nom prenom year month day hour minute second) =
        { last_name := String.mk nom
          first_name := String.mk prenom
          date := String.mk (year ++ '-' :: month ++ '-' :: day)
          time := String.mk (hour ++ ':' :: minute ++ ':' :: second)
          datetime := String.mk (year ++ '-' :: month ++ '-' :: day ++ 'T' ::
            hour ++ ':' :: minute ++ ':' :: second) }) ∧
    (∀ s : String, matchFilenameGroups s.data = Option.none →
      parse_filename s =
        { last_name := "", first_name := "", date := "", time := "", datetime := "" }) := by
  constructor
  · intro nom prenom year month day hour minute second h1 h2 h3 h4 h5 h6 h7 h8 h9 h10 h11
      h12 h13 h14 h15 h16
    unfold parse_filename encodeFilename
    rw [show (String.mk (encodeFilenameL nom prenom year month day hour minute second)).data
        = encodeFilenameL nom prenom year month day hour minute second from rfl,
      matchFilenameGroups_encode nom prenom year month day hour minute second
        h1 h2 h3 h4 h5 h6 h7 h8 h9 h10 h11 h12 h13 h14 h15 h16]
  · intro s h
    unfold parse_filename
    rw [h]

/-- C7 witness: the round-trip at a concrete filename, and the all-empty
result at a concrete non-matching filename. -/
theorem C7_witness :
    parse_filename "TCP__DOE_Jane_2024.01.02_10.11.12_.xml" =
      { last_name := "DOE", first_name := "Jane", date := "2024-01-02",
        time := "10:11:12", datetime := "2024-01-02T10:11:12" } ∧
    parse_filename "random.xml" =
      { last_name := "", first_name := "", date := "", time := "", datetime := "" } := by
  constructor
  · have h := C7_filename_roundtrip.1 "DOE".data "Jane".data "2024".data "01".data "02".data
      "10".data "11".data "12".data (by decide) (by decide) (by decide) (by decide)
      (by decide) (by decide) (by decide) (by decide) (by decide) (by decide) (by decide)
      (by decide) (by decide) (by decide) (by decide) (by decide)
    have he : encodeFilename "DOE".data "Jane".data "2024".data "01".data "02".data
        "10".data "11".data "12".data = "TCP__DOE_Jane_2024.01.02_10.11.12_.xml" := by
      with_unfolding_all decide
    rw [he] at h
    exact h
  · exact C7_filename_roundtrip.2 "random.xml" rfl

/-! ## Claim C2: the curve aggregation

Infrastructure: the interpretation of `Q` into Mathlib's `ℚ` (to borrow
ordered-field and floor lemmas), a specification-side description of the
aggregation as consecutive runs of equal bucket labels, and the proof that
the accumulation loop computes exactly that. -/

/-- The denominator produced by `mkQ` is always positive. -/
theorem mkQ_den_pos (n d : ℤ) : 0 < (mkQ n d).den := by
  unfold mkQ
  by_cases hd : d = 0
  · simp [hd]
  · simp only [if_neg hd]
    set n' := if d < 0 then -n else n with hn'
    set d' := if d < 0 then -d else d with hd'
    have hd'pos : 0 < d' := by
      rw [hd']
      by_cases h : d < 0
      · simp only [if_pos h]; omega
      · simp only [if_neg h]; omega
    have hgne : Int.gcd n' d' ≠ 0 := by
      intro h0
      have h1 := Int.gcd_eq_zero_iff.mp h0
      omega
    have hg : (0 : ℤ) < (Int.gcd n' d' : ℤ) := by
      exact_mod_cast Nat.pos_of_ne_zero hgne
    obtain ⟨k, hk⟩ := (Int.gcd_dvd_right : ((Int.gcd n' d' : ℤ)) ∣ d')
    have hk0 : 0 < k := by nlinarith
    calc 0 < k := hk0
    _ = d' / (Int.gcd n' d' : ℤ) := by
        nth_rewrite 1 [hk]
        exact (Int.mul_ediv_cancel_left _ (by exact_mod_cast hgne)).symm

/-- `mkQ` interprets as the intended quotient. -/
theorem toRat_mkQ (n d : ℤ) (hd : d ≠ 0) : (mkQ n d).toRat = (n : ℚ) / (d : ℚ) := by
  unfold mkQ Q.toRat
  simp only [if_neg hd]
  set n' := if d < 0 then -n else n with hn'
  set d' := if d < 0 then -d else d with hd'
  have hd'0 : d' ≠ 0 := by rw [hd']; split <;> omega
  have hgne : Int.gcd n' d' ≠ 0 := by
    intro h0
    exact hd'0 (Int.gcd_eq_zero_iff.mp h0).2
  have hgQ : ((Int.gcd n' d' : ℤ) : ℚ) ≠ 0 := Int.cast_ne_zero.mpr (by exact_mod_cast hgne)
  have hd'Q : (d' : ℚ) ≠ 0 := Int.cast_ne_zero.mpr hd'0
  have hstep : ((n' / (Int.gcd n' d' : ℤ) : ℤ) : ℚ) / ((d' / (Int.gcd n' d' : ℤ) : ℤ) : ℚ)
      = (n' : ℚ) / (d' : ℚ) := by
    rw [Int.cast_div_charZero Int.gcd_dvd_left, Int.cast_div_charZero Int.gcd_dvd_right,
      div_div_div_cancel_right₀]
    exact hgQ
  rw [hstep]
  by_cases h : d < 0
  · rw [hn', hd']
    simp only [if_pos h, Int.cast_neg]
    rw [neg_div_neg_eq]
  · rw [hn', hd']
    simp only [if_neg h]

/-- `qofInt` interprets as the integer. -/
theorem toRat_qofInt (n : ℤ) : (qofInt n).toRat = (n : ℚ) := by
  unfold qofInt Q.toRat
  simp

/-- `qofNat` interprets as the natural number. -/
theorem toRat_qofNat (n : ℕ) : (qofNat n).toRat = (n : ℚ) := by
  unfold qofNat Q.toRat
  simp

/-- The order on canonical values agrees with the rational order. -/
theorem qle_iff {a b : Q} (ha : Q.posden a) (hb : Q.posden b) :
    a ≤ b ↔ a.toRat ≤ b.toRat := by
  have haQ : (0 : ℚ) < (a.den : ℚ) := by exact_mod_cast ha
  have hbQ : (0 : ℚ) < (b.den : ℚ) := by exact_mod_cast hb
  show (qle a b = true) ↔ _
  unfold qle Q.toRat
  rw [decide_eq_true_iff, div_le_div_iff₀ haQ hbQ]
  constructor
  · intro h; exact_mod_cast h
  · intro h; exact_mod_cast h

/-- The strict order on canonical values agrees with the rational order. -/
theorem qlt_iff {a b : Q} (ha : Q.posden a) (hb : Q.posden b) :
    a < b ↔ a.toRat < b.toRat := by
  have haQ : (0 : ℚ) < (a.den : ℚ) := by exact_mod_cast ha
  have hbQ : (0 : ℚ) < (b.den : ℚ) := by exact_mod_cast hb
  show (qlt a b = true) ↔ _
  unfold qlt Q.toRat
  rw [decide_eq_true_iff, div_lt_div_iff₀ haQ hbQ]
  constructor
  · intro h; exact_mod_cast h
  · intro h; exact_mod_cast h

/-- The floor of a canonical value is the rational floor. -/
theorem qfloor_eq {a : Q} (ha : Q.posden a) : qfloor a = ⌊a.toRat⌋ := by
  unfold qfloor Q.toRat
  rw [Int.fdiv_eq_ediv _ (le_of_lt ha)]
  have hden : a.den = ((a.den.toNat : ℕ) : ℤ) := (Int.toNat_of_nonneg (le_of_lt ha)).symm
  rw [hden]
  rw [show (((a.den.toNat : ℕ) : ℤ) : ℚ) = ((a.den.toNat : ℕ) : ℚ) by push_cast; ring]
  exact (Rat.floor_intCast_div_natCast a.num a.den.toNat).symm

/-- Division by a non-zero integer interprets pointwise on canonical
values. -/
theorem toRat_qdiv_qofInt (a : Q) (n : ℤ) (ha : Q.posden a) (hn : n ≠ 0) :
    (a / qofInt n).toRat = a.toRat / (n : ℚ) := by
  show (qdiv a (qofInt n)).toRat = _
  have hden : a.den ≠ 0 := ne_of_gt ha
  unfold qdiv qofInt
  simp only
  rw [toRat_mkQ _ _ (mul_ne_zero hden hn)]
  unfold Q.toRat
  push_cast
  rw [mul_one, div_div]

/-- Interpretation of `0`. -/
theorem toRat_zero : (0 : Q).toRat = 0 := by
  show (qofNat 0).toRat = 0
  rw [toRat_qofNat]
  norm_num

/-- `0` is canonical. -/
theorem posden_zero : Q.posden (0 : Q) := by
  show (0 : ℤ) < 1
  omega

/-- The bucket label, read through the rational interpretation. -/
theorem bucketOf_eq_floor (iv : ℤ) (hiv : 0 < iv) (t : Q) (ht : Q.posden t) :
    bucketOf iv t = ⌊t.toRat / (iv : ℚ)⌋ * iv + iv := by
  unfold bucketOf
  have hp : Q.posden (t / qofInt iv) := mkQ_den_pos _ _
  rw [qfloor_eq hp, toRat_qdiv_qofInt t iv ht (ne_of_gt hiv)]

/-- Bucket labels of nonnegative samples are positive (so the Python loop's
initial `current_interval = 0` never captures the first sample). -/
theorem bucketOf_pos (iv : ℤ) (hiv : 0 < iv) (t : Q) (ht : Q.posden t)
    (htnn : (0 : Q) ≤ t) : 0 < bucketOf iv t := by
  rw [bucketOf_eq_floor iv hiv t ht]
  have h0 : (0 : ℚ) ≤ t.toRat := by
    have h := (qle_iff posden_zero ht).mp htnn
    rwa [toRat_zero] at h
  have hivQ : (0 : ℚ) < (iv : ℚ) := by exact_mod_cast hiv
  have hf : 0 ≤ ⌊t.toRat / (iv : ℚ)⌋ := Int.floor_nonneg.mpr (div_nonneg h0 (le_of_lt hivQ))
  nlinarith

/-- Bucket labels are monotone in the sample time. -/
theorem bucketOf_mono (iv : ℤ) (hiv : 0 < iv) {t t' : Q} (ht : Q.posden t)
    (ht' : Q.posden t') (h : t ≤ t') : bucketOf iv t ≤ bucketOf iv t' := by
  rw [bucketOf_eq_floor iv hiv t ht, bucketOf_eq_floor iv hiv t' ht']
  have hQ : t.toRat ≤ t'.toRat := (qle_iff ht ht').mp h
  have hivQ : (0 : ℚ) < (iv : ℚ) := by exact_mod_cast hiv
  have hdiv : t.toRat / (iv : ℚ) ≤ t'.toRat / (iv : ℚ) := by gcongr
  have hfl := Int.floor_le_floor hdiv
  nlinarith

/-- A sample lies in the left-closed, right-open interval whose right
endpoint labels its bucket. -/
theorem bucketOf_bounds (iv : ℤ) (hiv : 0 < iv) (t : Q) (ht : Q.posden t) :
    ((bucketOf iv t : ℚ) - (iv : ℚ)) ≤ t.toRat ∧ t.toRat < ((bucketOf iv t : ℚ)) := by
  have hivQ : (0 : ℚ) < (iv : ℚ) := by exact_mod_cast hiv
  rw [bucketOf_eq_floor iv hiv t ht]
  have h1 : (⌊t.toRat / (iv : ℚ)⌋ : ℚ) * iv ≤ t.toRat := by
    rw [← le_div_iff₀ hivQ]
    exact Int.floor_le (t.toRat / (iv : ℚ))
  have h2 : t.toRat < ((⌊t.toRat / (iv : ℚ)⌋ : ℚ) + 1) * iv := by
    rw [← div_lt_iff₀ hivQ]
    exact Int.lt_floor_add_one (t.toRat / (iv : ℚ))
  constructor
  · push_cast
    linarith
  · push_cast
    linarith

/-- The collected values of a group of measurements, as the loop accumulates
them. -/
def collectVals (g : List Meas) : List (String × List PyVal) := g.foldl accumMeas []

/-- Merge a pending run into a run list, combining with the first run when
the labels agree. -/
def consMerge (p : ℤ × List Meas) : List (ℤ × List Meas) → List (ℤ × List Meas)
  | [] => [p]
  | (b, g) :: rest => if b = p.1 then (p.1, p.2 ++ g) :: rest else p :: (b, g) :: rest

/-- The consecutive runs of equal bucket labels of a measurement list. -/
def bucketRuns (iv : ℤ) : List Meas → List (ℤ × List Meas)
  | [] => []
  | m :: ms => consMerge (bucketOf iv m.t_seconds, [m]) (bucketRuns iv ms)

/-- Aggregation described run by run: each run yields the averaged record of
its collected values. -/
def runsAgg : List (ℤ × List Meas) → Except PyErr (List AggRec)
  | [] => Except.ok []
  | (b, g) :: rest => do
    let r ← mkAvgRec b (collectVals g)
    let l ← runsAgg rest
    Except.ok (r :: l)

/-- Appending one measurement to a group accumulates it last. -/
theorem collectVals_append_one (g : List Meas) (m : Meas) :
    collectVals (g ++ [m]) = accumMeas (collectVals g) m := by
  unfold collectVals
  rw [List.foldl_append]
  rfl

/-- Merging twice with the same label merges the groups. -/
theorem consMerge_merge (c : ℤ) (g g' : List Meas) (R : List (ℤ × List Meas)) :
    consMerge (c, g) (consMerge (c, g') R) = consMerge (c, g ++ g') R := by
  cases R with
  | nil => simp [consMerge]
  | cons p rest =>
    obtain ⟨b, g2⟩ := p
    by_cases hb : b = c
    · simp [consMerge, hb, List.append_assoc]
    · simp [consMerge, hb]

/-- Merging with a fresh label after a merge with a different label just
prepends. -/
theorem consMerge_ne (p : ℤ × List Meas) (b' : ℤ) (g' : List Meas)
    (R : List (ℤ × List Meas)) (h : b' ≠ p.1) :
    consMerge p (consMerge (b', g') R) = p :: consMerge (b', g') R := by
  cases R with
  | nil => simp [consMerge, h]
  | cons q rest =>
    obtain ⟨b2, g2⟩ := q
    by_cases hb : b2 = b'
    · simp [consMerge, hb, h]
    · simp [consMerge, hb, h]

/-- The accumulation loop of `_aggregate_by_interval`, started with a
non-empty pending group, computes exactly the run-by-run aggregation of the
pending group merged with the runs of the remaining samples. -/
theorem aggLoop_eq_runsAgg (iv : ℤ) (ms : List Meas) :
    ∀ (g : List Meas) (ci : ℤ), g ≠ [] → (∀ m ∈ g, bucketOf iv m.t_seconds = ci) →
    aggLoop iv ms ci (collectVals g) g.length =
      runsAgg (consMerge (ci, g) (bucketRuns iv ms)) := by
  induction ms with
  | nil =>
    intro g ci hg _
    have hlen : 0 < g.length := List.length_pos.mpr hg
    show aggLoop iv [] ci (collectVals g) g.length = runsAgg [(ci, g)]
    simp only [aggLoop, if_pos hlen, runsAgg]
    cases mkAvgRec ci (collectVals g) with
    | ok r => simp
    | error e => simp
  | cons m rest ih =>
    intro g ci hg hci
    by_cases hb : bucketOf iv m.t_seconds = ci
    · have hstep : aggLoop iv (m :: rest) ci (collectVals g) g.length =
          aggLoop iv rest ci (collectVals (g ++ [m])) (g ++ [m]).length := by
        simp only [aggLoop, if_neg (not_not_intro hb), collectVals_append_one,
          List.length_append, List.length_singleton]
      rw [hstep, ih (g ++ [m]) ci (by simp) (fun x hx => by
        rcases List.mem_append.mp hx with h | h
        · exact hci x h
        · rw [List.mem_singleton.mp h]; exact hb)]
      show _ = runsAgg (consMerge (ci, g)
        (consMerge (bucketOf iv m.t_seconds, [m]) (bucketRuns iv rest)))
      rw [hb, consMerge_merge]
    · have hlen : 0 < g.length := List.length_pos.mpr hg
      have ih1 := ih [m] (bucketOf iv m.t_seconds) (by simp) (by simp)
      have hstep : aggLoop iv (m :: rest) ci (collectVals g) g.length =
          (do
            let r ← mkAvgRec ci (collectVals g)
            let l ← aggLoop iv rest (bucketOf iv m.t_seconds) (collectVals [m]) [m].length
            Except.ok (r :: l)) := by
        simp only [aggLoop, if_pos hb, if_pos hlen]
        rfl
      rw [hstep, ih1]
      show _ = runsAgg (consMerge (ci, g)
        (consMerge (bucketOf iv m.t_seconds, [m]) (bucketRuns iv rest)))
      rw [consMerge_ne (ci, g) _ _ _ hb]
      show _ = runsAgg ((ci, g) :: consMerge (bucketOf iv m.t_seconds, [m]) (bucketRuns iv rest))
      rfl

/-- `_aggregate_by_interval` computes exactly the run-by-run aggregation,
for any stream of samples with nonnegative canonical times. -/
theorem aggregate_eq_runsAgg (iv : ℤ) (hiv : 0 < iv) (ms : List Meas)
    (hpos : ∀ m ∈ ms, Q.posden m.t_seconds) (hnn : ∀ m ∈ ms, (0 : Q) ≤ m.t_seconds) :
    aggregate_by_interval ms iv = runsAgg (bucketRuns iv ms) := by
  cases ms with
  | nil => rfl
  | cons m rest =>
    have hbpos : 0 < bucketOf iv m.t_seconds :=
      bucketOf_pos iv hiv _ (hpos m (List.mem_cons_self _ _)) (hnn m (List.mem_cons_self _ _))
    have hbne : bucketOf iv m.t_seconds ≠ 0 := ne_of_gt hbpos
    have hstep : aggregate_by_interval (m :: rest) iv =
        aggLoop iv rest (bucketOf iv m.t_seconds) (collectVals [m]) [m].length := by
      show aggLoop iv (m :: rest) 0 [] 0 = _
      simp only [aggLoop, if_pos hbne]
      rfl
    rw [hstep, aggLoop_eq_runsAgg iv rest [m] (bucketOf iv m.t_seconds) (by simp) (by simp)]
    rfl

/-- The values one row of fields contributes for a key. -/
def fieldVals (fs : List (String × PyVal)) (k : String) : List PyVal :=
  (fs.filter fun kv => decide (kv.1 = k)).map Prod.snd

/-- All values a group of measurements collects for a key, in order. -/
def valsOfKey (g : List Meas) (k : String) : List PyVal :=
  g.flatMap fun m => fieldVals m.fields k

/-- Looking a key up after one `accumField` step. -/
theorem lookupKV_accumField (cv : List (String × List PyVal)) (ka : String) (v : PyVal)
    (k : String) :
    lookupKV k (accumField cv ka v) =
      if ka = k then some ((lookupKV k cv).getD [] ++ [v]) else lookupKV k cv := by
  induction cv with
  | nil =>
    by_cases h : ka = k
    · simp [accumField, lookupKV, h]
    · simp [accumField, lookupKV, h]
  | cons kv0 rest ih =>
    obtain ⟨k0, vs0⟩ := kv0
    by_cases h0 : k0 = ka
    · subst h0
      by_cases hk : k0 = k
      · subst hk
        simp [accumField, lookupKV]
      · simp [accumField, lookupKV, hk]
    · by_cases hk : k0 = k
      · subst hk
        have hka : ¬ (ka = k0) := fun h => h0 h.symm
        simp [accumField, lookupKV, h0, hka]
      · simp [accumField, lookupKV, h0, hk, ih]

/-- Looking a key up after folding one measurement's fields into the
collection. -/
theorem lookupKV_fieldsFold (k : String) (hk : k ∉ excludedKeys) (fs : List (String × PyVal)) :
    ∀ cv : List (String × List PyVal),
    (lookupKV k (fs.foldl
        (fun cv2 kv => if kv.1 ∈ excludedKeys then cv2 else accumField cv2 kv.1 kv.2) cv)).getD []
      = (lookupKV k cv).getD [] ++ fieldVals fs k ∧
    (lookupKV k (fs.foldl
        (fun cv2 kv => if kv.1 ∈ excludedKeys then cv2 else accumField cv2 kv.1 kv.2) cv)
        = Option.none ↔ lookupKV k cv = Option.none ∧ fieldVals fs k = []) := by
  induction fs with
  | nil =>
    intro cv
    simp [fieldVals]
  | cons f rest ih =>
    intro cv
    obtain ⟨kf, vf⟩ := f
    by_cases hex : kf ∈ excludedKeys
    · have hne : ¬ (kf = k) := fun h => hk (h ▸ hex)
      simp only [List.foldl_cons, if_pos hex]
      have h2 := ih cv
      simpa [fieldVals, List.filter_cons, hne] using h2
    · simp only [List.foldl_cons, if_neg hex]
      by_cases hkf : kf = k
      · subst hkf
        have hacc := lookupKV_accumField cv kf vf kf
        rw [if_pos rfl] at hacc
        obtain ⟨ih1, ih2⟩ := ih (accumField cv kf vf)
        constructor
        · rw [ih1, hacc]
          simp [fieldVals, List.filter_cons, List.append_assoc]
        · rw [ih2, hacc]
          simp [fieldVals, List.filter_cons]
      · have hacc := lookupKV_accumField cv kf vf k
        rw [if_neg hkf] at hacc
        obtain ⟨ih1, ih2⟩ := ih (accumField cv kf vf)
        constructor
        · rw [ih1, hacc]
          simp [fieldVals, List.filter_cons, hkf]
        · rw [ih2, hacc]
          simp [fieldVals, List.filter_cons, hkf]

/-- The collected values of a group, looked up per key: the entry is exactly
`valsOfKey`, and it is absent exactly when no field contributed. -/
theorem lookupKV_collectVals (k : String) (hk : k ∉ excludedKeys) (g : List Meas) :
    (lookupKV k (collectVals g)).getD [] = valsOfKey g k ∧
    (lookupKV k (collectVals g) = Option.none ↔ valsOfKey g k = []) := by
  suffices h : ∀ cv : List (String × List PyVal),
      (lookupKV k (g.foldl accumMeas cv)).getD [] = (lookupKV k cv).getD [] ++ valsOfKey g k ∧
      (lookupKV k (g.foldl accumMeas cv) = Option.none ↔
        lookupKV k cv = Option.none ∧ valsOfKey g k = []) by
    obtain ⟨h1, h2⟩ := h []
    exact ⟨by simpa [lookupKV] using h1, by simpa [lookupKV] using h2⟩
  induction g with
  | nil =>
    intro cv
    simp [valsOfKey]
  | cons m rest ih =>
    intro cv
    obtain ⟨g1, g2⟩ := lookupKV_fieldsFold k hk m.fields cv
    have g1' : (lookupKV k (accumMeas cv m)).getD [] =
        (lookupKV k cv).getD [] ++ fieldVals m.fields k := g1
    have g2' : lookupKV k (accumMeas cv m) = Option.none ↔
        lookupKV k cv = Option.none ∧ fieldVals m.fields k = [] := g2
    obtain ⟨r1, r2⟩ := ih (accumMeas cv m)
    constructor
    · rw [List.foldl_cons, r1, g1']
      simp [valsOfKey, List.append_assoc]
    · rw [List.foldl_cons, r2, g2']
      constructor
      · rintro ⟨⟨ha, hb⟩, hc⟩
        refine ⟨ha, ?_⟩
        simp [valsOfKey] at hc ⊢
        exact ⟨hb, hc⟩
      · rintro ⟨ha, hb⟩
        simp [valsOfKey] at hb
        refine ⟨⟨ha, hb.1⟩, ?_⟩
        simp [valsOfKey]
        exact hb.2

/-- A key absent from the key column is not found. -/
theorem lookupKV_eq_none (k : String) (l : List (String × List PyVal))
    (h : k ∉ l.map Prod.fst) : lookupKV k l = Option.none := by
  induction l with
  | nil => rfl
  | cons kv rest ih =>
    obtain ⟨k0, v0⟩ := kv
    simp only [List.map_cons, List.mem_cons] at h
    push_neg at h
    rw [show lookupKV k ((k0, v0) :: rest) = if k0 = k then some v0 else lookupKV k rest from
      rfl, if_neg (fun he => h.1 he.symm), ih h.2]

/-- `accumField` appends the key to the key column exactly when it is new. -/
theorem accumField_keys (cv : List (String × List PyVal)) (ka : String) (v : PyVal) :
    (accumField cv ka v).map Prod.fst =
      if ka ∈ cv.map Prod.fst then cv.map Prod.fst else cv.map Prod.fst ++ [ka] := by
  induction cv with
  | nil => simp [accumField]
  | cons kv0 rest ih =>
    obtain ⟨k0, vs0⟩ := kv0
    by_cases h0 : k0 = ka
    · subst h0
      simp [accumField]
    · have hka : ¬ (ka = k0) := fun h => h0 h.symm
      rw [show accumField ((k0, vs0) :: rest) ka v = (k0, vs0) :: accumField rest ka v from by
        rw [accumField, if_neg h0]]
      by_cases hm : ka ∈ rest.map Prod.fst
      · simp [ih, hm, hka]
      · simp [ih, hm, hka]

/-- `accumField` preserves distinctness of the key column. -/
theorem accumField_keys_nodup (cv : List (String × List PyVal)) (ka : String) (v : PyVal)
    (h : (cv.map Prod.fst).Nodup) : ((accumField cv ka v).map Prod.fst).Nodup := by
  rw [accumField_keys]
  by_cases hm : ka ∈ cv.map Prod.fst
  · rwa [if_pos hm]
  · rw [if_neg hm]
    simp [List.nodup_append, h, hm]

/-- Folding one measurement's fields preserves distinctness of the key
column. -/
theorem fieldsFold_keys_nodup (fs : List (String × PyVal)) :
    ∀ cv : List (String × List PyVal), (cv.map Prod.fst).Nodup →
    ((fs.foldl (fun cv2 kv => if kv.1 ∈ excludedKeys then cv2 else accumField cv2 kv.1 kv.2)
      cv).map Prod.fst).Nodup := by
  induction fs with
  | nil => intro cv h; exact h
  | cons f rest ih =>
    intro cv h
    rw [List.foldl_cons]
    by_cases hex : f.1 ∈ excludedKeys
    · rw [if_pos hex]
      exact ih cv h
    · rw [if_neg hex]
      exact ih _ (accumField_keys_nodup cv f.1 f.2 h)

/-- The collected-values dictionary has pairwise distinct keys. -/
theorem collectVals_keys_nodup (g : List Meas) : ((collectVals g).map Prod.fst).Nodup := by
  suffices h : ∀ cv : List (String × List PyVal), (cv.map Prod.fst).Nodup →
      ((g.foldl accumMeas cv).map Prod.fst).Nodup from h [] (by simp)
  induction g with
  | nil => intro cv h; exact h
  | cons m rest ih =>
    intro cv h
    rw [List.foldl_cons]
    exact ih _ (fieldsFold_keys_nodup m.fields cv h)

/-- Exact sum of the numeric values of a list, skipping the rest. -/
def sumNumsTotal (vs : List PyVal) : Q :=
  vs.foldl (fun a v => match v with | PyVal.num x => a + x | _ => a) 0

/-- When Python's `sum` succeeds, its value is the numeric total. -/
theorem sumValsAux_eq (vs : List PyVal) : ∀ acc q : Q,
    sumValsAux acc vs = Except.ok q →
    q = vs.foldl (fun a v => match v with | PyVal.num x => a + x | _ => a) acc := by
  induction vs with
  | nil =>
    intro acc q h
    exact (Except.ok.inj h).symm
  | cons v rest ih =>
    intro acc q h
    cases v with
    | num x => exact ih (acc + x) q h
    | str s => exact absurd h (by simp [sumValsAux])
    | none => exact absurd h (by simp [sumValsAux])

/-- `sumVals` succeeds only with the numeric total. -/
theorem sumVals_eq (vs : List PyVal) (q : Q) (h : sumVals vs = Except.ok q) :
    q = sumNumsTotal vs := sumValsAux_eq vs 0 q h

/-- Modelled from the spec: the exported value of a field over one bucket's
group of samples — absent when the group collected no non-null value for the
key, otherwise the arithmetic mean of the non-null values rounded to two
decimal places. -/
def specFieldValue (g : List Meas) (k : String) : Option Q :=
  let valid := (valsOfKey g k).filter notNoneV
  if valid = [] then Option.none
  else some (pyRound2 (sumNumsTotal valid / qofNat valid.length))

/-- Looking a key up in the averaged fields of a distinct-key collection. -/
theorem lookupKV_mkAvgFields (cv : List (String × List PyVal)) :
    ∀ fs : List (String × Q), (cv.map Prod.fst).Nodup →
    mkAvgFields cv = Except.ok fs → ∀ k : String,
    lookupKV k fs =
      (match lookupKV k cv with
       | Option.none => Option.none
       | some vs =>
         if vs.filter notNoneV = [] then Option.none
         else some (pyRound2 (sumNumsTotal (vs.filter notNoneV) /
           qofNat (vs.filter notNoneV).length))) := by
  induction cv with
  | nil =>
    intro fs _ hok k
    have hfs : fs = [] := (Except.ok.inj hok).symm
    subst hfs
    rfl
  | cons kv0 rest ih =>
    intro fs hnd hok k
    obtain ⟨k0, vs0⟩ := kv0
    rw [List.map_cons] at hnd
    obtain ⟨hk0, hnd'⟩ := List.nodup_cons.mp hnd
    by_cases h1 : vs0 = []
    · rw [mkAvgFields, if_pos h1] at hok
      have heq := ih fs hnd' hok k
      rw [heq]
      by_cases hk : k0 = k
      · subst hk
        have hrest : lookupKV k0 rest = Option.none := lookupKV_eq_none k0 rest hk0
        rw [hrest]
        simp [lookupKV, h1]
      · have hcons : lookupKV k ((k0, vs0) :: rest) = lookupKV k rest := by
          simp [lookupKV, hk]
        rw [hcons]
    · by_cases h2 : vs0.filter notNoneV = []
      · rw [mkAvgFields, if_neg h1] at hok
        simp only [if_pos h2] at hok
        have heq := ih fs hnd' hok k
        rw [heq]
        by_cases hk : k0 = k
        · subst hk
          have hrest : lookupKV k0 rest = Option.none := lookupKV_eq_none k0 rest hk0
          rw [hrest]
          simp [lookupKV, h2]
        · have hcons : lookupKV k ((k0, vs0) :: rest) = lookupKV k rest := by
            simp [lookupKV, hk]
          rw [hcons]
      · rw [mkAvgFields, if_neg h1] at hok
        simp only [if_neg h2] at hok
        cases hs : sumVals (vs0.filter notNoneV) with
        | error e =>
          rw [hs] at hok
          simp at hok
        | ok s =>
          rw [hs, except_ok_bind] at hok
          cases ht : mkAvgFields rest with
          | error e =>
            rw [ht] at hok
            simp at hok
          | ok tail =>
            rw [ht, except_ok_bind] at hok
            have hfs : fs = (k0, pyRound2 (s / qofNat (vs0.filter notNoneV).length)) :: tail :=
              (Except.ok.inj hok).symm
            subst hfs
            have heq := ih tail hnd' ht k
            by_cases hk : k0 = k
            · subst hk
              have hsum : s = sumNumsTotal (vs0.filter notNoneV) := sumVals_eq _ s hs
              simp [lookupKV, h2, hsum]
            · have hcons1 : lookupKV k
                  ((k0, pyRound2 (s / qofNat (vs0.filter notNoneV).length)) :: tail) =
                  lookupKV k tail := by
                simp [lookupKV, hk]
              have hcons2 : lookupKV k ((k0, vs0) :: rest) = lookupKV k rest := by
                simp [lookupKV, hk]
              rw [hcons1, heq, hcons2]

/-- The saved record of one bucket: the label is the bucket label, and every
non-excluded key reads back its spec field value. -/
theorem mkAvgRec_lookupSpec (b : ℤ) (g : List Meas) (r : AggRec)
    (hok : mkAvgRec b (collectVals g) = Except.ok r) :
    r.t_seconds = qofInt b ∧
    ∀ k, k ∉ excludedKeys → lookupKV k r.fields = specFieldValue g k := by
  cases hfs : mkAvgFields (collectVals g) with
  | error e =>
    rw [mkAvgRec, hfs] at hok
    simp at hok
  | ok fs =>
    rw [mkAvgRec, hfs, except_ok_bind] at hok
    have hr : r = { t_seconds := qofInt b, fields := fs } := (Except.ok.inj hok).symm
    subst hr
    refine ⟨rfl, fun k hk => ?_⟩
    rw [show ({ t_seconds := qofInt b, fields := fs } : AggRec).fields = fs from rfl,
      lookupKV_mkAvgFields (collectVals g) fs (collectVals_keys_nodup g) hfs k]
    obtain ⟨hg1, hg2⟩ := lookupKV_collectVals k hk g
    cases hl : lookupKV k (collectVals g) with
    | none =>
      have hv : valsOfKey g k = [] := hg2.mp hl
      simp [specFieldValue, hv]
    | some vs =>
      have hvs : vs = valsOfKey g k := by
        rw [hl] at hg1
        simpa using hg1
      simp only [specFieldValue, ← hvs]

/-- Merging preserves the concatenation of the groups. -/
theorem consMerge_flat (p : ℤ × List Meas) (R : List (ℤ × List Meas)) :
    (consMerge p R).flatMap Prod.snd = p.2 ++ R.flatMap Prod.snd := by
  cases R with
  | nil => simp [consMerge]
  | cons q rest =>
    obtain ⟨b, g⟩ := q
    by_cases hb : b = p.1
    · simp [consMerge, hb, List.append_assoc]
    · simp [consMerge, hb]

/-- The runs partition the measurement list in order. -/
theorem bucketRuns_flat (iv : ℤ) (ms : List Meas) :
    (bucketRuns iv ms).flatMap Prod.snd = ms := by
  induction ms with
  | nil => rfl
  | cons m rest ih =>
    rw [bucketRuns, consMerge_flat]
    simp [ih]

/-- Merging preserves the per-run bucket labelling. -/
theorem consMerge_buckets (iv b0 : ℤ) (g0 : List Meas) (R : List (ℤ × List Meas))
    (hg0 : ∀ m ∈ g0, bucketOf iv m.t_seconds = b0)
    (hR : ∀ p ∈ R, ∀ m ∈ p.2, bucketOf iv m.t_seconds = p.1) :
    ∀ p ∈ consMerge (b0, g0) R, ∀ m ∈ p.2, bucketOf iv m.t_seconds = p.1 := by
  cases R with
  | nil =>
    intro p hp m hm
    simp [consMerge] at hp
    subst hp
    exact hg0 m hm
  | cons q rest =>
    obtain ⟨b, g⟩ := q
    by_cases hb : b = b0
    · intro p hp m hm
      rw [show consMerge (b0, g0) ((b, g) :: rest) = (b0, g0 ++ g) :: rest from by
        simp [consMerge, hb]] at hp
      rcases List.mem_cons.mp hp with h | h
      · subst h
        rcases List.mem_append.mp hm with h2 | h2
        · exact hg0 m h2
        · have hbm := hR (b, g) (List.mem_cons_self _ _) m h2
          rw [hb] at hbm
          exact hbm
      · exact hR p (List.mem_cons_of_mem _ h) m hm
    · intro p hp m hm
      rw [show consMerge (b0, g0) ((b, g) :: rest) = (b0, g0) :: (b, g) :: rest from by
        simp [consMerge, hb]] at hp
      rcases List.mem_cons.mp hp with h | h
      · subst h
        exact hg0 m hm
      · exact hR p h m hm

/-- Every sample of a run carries the run's bucket label. -/
theorem bucketRuns_buckets (iv : ℤ) (ms : List Meas) :
    ∀ p ∈ bucketRuns iv ms, ∀ m ∈ p.2, bucketOf iv m.t_seconds = p.1 := by
  induction ms with
  | nil =>
    intro p hp
    simp [bucketRuns] at hp
  | cons m rest ih =>
    rw [bucketRuns]
    exact consMerge_buckets iv _ [m] (bucketRuns iv rest) (by simp) ih

/-- The runs of a non-empty list start with the head sample's run. -/
theorem bucketRuns_head (iv : ℤ) (m : Meas) (ms : List Meas) :
    ∃ g r, bucketRuns iv (m :: ms) = (bucketOf iv m.t_seconds, m :: g) :: r := by
  rw [bucketRuns]
  cases bucketRuns iv ms with
  | nil => exact ⟨[], [], rfl⟩
  | cons q rest =>
    obtain ⟨b, g⟩ := q
    by_cases hb : b = bucketOf iv m.t_seconds
    · exact ⟨g, rest, by simp [consMerge, hb]⟩
    · exact ⟨[], (b, g) :: rest, by simp [consMerge, hb]⟩

/-- For time-sorted samples with canonical times, the run labels are
strictly increasing. -/
theorem bucketRuns_chain (iv : ℤ) (hiv : 0 < iv) (ms : List Meas)
    (hpos : ∀ m ∈ ms, Q.posden m.t_seconds)
    (hsort : List.Chain' (fun a b => a.t_seconds ≤ b.t_seconds) ms) :
    List.Chain' (· < ·) ((bucketRuns iv ms).map Prod.fst) := by
  induction ms with
  | nil => simp [bucketRuns]
  | cons m rest ih =>
    have hpos' : ∀ x ∈ rest, Q.posden x.t_seconds :=
      fun x hx => hpos x (List.mem_cons_of_mem _ hx)
    have ihr := ih hpos' hsort.tail
    cases rest with
    | nil => simp [bucketRuns, consMerge]
    | cons y ys =>
      obtain ⟨g, r, hruns⟩ := bucketRuns_head iv y ys
      have hle : m.t_seconds ≤ y.t_seconds := (List.chain'_cons.mp hsort).1
      have hmono := bucketOf_mono iv hiv (hpos m (List.mem_cons_self _ _))
        (hpos y (List.mem_cons_of_mem _ (List.mem_cons_self _ _))) hle
      rw [show bucketRuns iv (m :: y :: ys) =
        consMerge (bucketOf iv m.t_seconds, [m]) (bucketRuns iv (y :: ys)) from rfl, hruns]
      rw [hruns] at ihr
      simp only [List.map_cons] at ihr
      by_cases hb : bucketOf iv y.t_seconds = bucketOf iv m.t_seconds
      · rw [show consMerge (bucketOf iv m.t_seconds, [m])
          ((bucketOf iv y.t_seconds, y :: g) :: r) =
          (bucketOf iv m.t_seconds, [m] ++ (y :: g)) :: r from by simp [consMerge, hb]]
        simp only [List.map_cons]
        rw [← hb]
        exact ihr
      · rw [show consMerge (bucketOf iv m.t_seconds, [m])
          ((bucketOf iv y.t_seconds, y :: g) :: r) =
          (bucketOf iv m.t_seconds, [m]) :: (bucketOf iv y.t_seconds, y :: g) :: r from by
          simp [consMerge, hb]]
        simp only [List.map_cons]
        rw [List.chain'_cons]
        exact ⟨lt_of_le_of_ne hmono (fun h => hb h.symm), ihr⟩

/-- Collected values of an all-numeric group are numbers or `None`. -/
theorem collectVals_numeric (g : List Meas) :
    (∀ m ∈ g, measNumeric m) →
    ∀ kv ∈ collectVals g, ∀ w ∈ kv.2, isNumOrNone w = true := by
  suffices h : ∀ cv : List (String × List PyVal), (∀ m ∈ g, measNumeric m) →
      (∀ kv ∈ cv, ∀ w ∈ kv.2, isNumOrNone w = true) →
      ∀ kv ∈ g.foldl accumMeas cv, ∀ w ∈ kv.2, isNumOrNone w = true from
    fun hg => h [] hg (by simp)
  induction g with
  | nil =>
    intro cv _ hcv
    exact hcv
  | cons m rest ih =>
    intro cv hg hcv
    rw [List.foldl_cons]
    exact ih _ (fun x hx => hg x (List.mem_cons_of_mem _ hx))
      (accumMeas_numeric m (hg m (List.mem_cons_self _ _)) cv hcv)

/-- Run-by-run aggregation of numeric groups: it succeeds, and each run
produces the record labelled by its bucket whose non-excluded keys read back
the spec field values of the run's group. -/
theorem runsAgg_spec (runs : List (ℤ × List Meas))
    (hnum : ∀ p ∈ runs, ∀ m ∈ p.2, measNumeric m) :
    ∃ l, runsAgg runs = Except.ok l ∧
      List.Forall₂ (fun (p : ℤ × List Meas) (rec : AggRec) =>
        rec.t_seconds = qofInt p.1 ∧
        ∀ k, k ∉ excludedKeys → lookupKV k rec.fields = specFieldValue p.2 k) runs l := by
  induction runs with
  | nil => exact ⟨[], rfl, List.Forall₂.nil⟩
  | cons p rest ih =>
    obtain ⟨b, g⟩ := p
    have hg : ∀ m ∈ g, measNumeric m := hnum (b, g) (List.mem_cons_self _ _)
    obtain ⟨r, hr⟩ := mkAvgRec_ok b (collectVals g) (collectVals_numeric g hg)
    obtain ⟨l, hl, hfor⟩ := ih (fun q hq => hnum q (List.mem_cons_of_mem _ hq))
    refine ⟨r :: l, ?_, List.Forall₂.cons (mkAvgRec_lookupSpec b g r hr) hfor⟩
    rw [runsAgg, hr, except_ok_bind, hl, except_ok_bind]

/-- Modelled from the spec: the bucket label of a sample under right-closed
intervals measured from session start — the least multiple of the interval
width at or above the sample time, so that the sample lies in
`(label - width, label]`. -/
def bucketRightClosed (iv : ℤ) (t : Q) : ℤ := -(qfloor (-(t / qofInt iv))) * iv

/-- C2: the claim's intervals are right-closed, but the code's bucket label
`int(t // interval_sec) * interval_sec + interval_sec` puts a sample sitting
exactly on a boundary (t = 15 s) into the next bucket (label 30), where the
right-closed reading would keep it in the bucket labelled 15 together with
the t = 14 s sample: the intervals are left-closed and right-open, labelled
by their right endpoint. -/
theorem C2_counterexample :
    aggregate_by_interval
      [{ t_seconds := 14, fields := [("t", PyVal.str "0:00:14"), ("FC", PyVal.num 100)] },
       { t_seconds := 15, fields := [("t", PyVal.str "0:00:15"), ("FC", PyVal.num 200)] }]
      GRAPH_INTERVAL_SECONDS =
      Except.ok [{ t_seconds := 15, fields := [("FC", 100)] },
                 { t_seconds := 30, fields := [("FC", 200)] }] ∧
    bucketOf GRAPH_INTERVAL_SECONDS 15 = 30 ∧
    bucketRightClosed GRAPH_INTERVAL_SECONDS 15 = 15 ∧
    bucketOf GRAPH_INTERVAL_SECONDS 14 = 15 ∧
    bucketRightClosed GRAPH_INTERVAL_SECONDS 14 = 15 := by
  with_unfolding_all decide

/-- C2 (amended): over measurements with canonical nonnegative sample times,
sorted by time, whose non-excluded fields hold numbers or nulls,
`_aggregate_by_interval` at the 15-second graph interval succeeds and emits
exactly one record per consecutive run of equal bucket labels: the record's
`t_seconds` is the run's label, and each key outside
{t, t_seconds, Phase, Marqueur} reads back the mean of the run's non-null
values rounded to two decimals, the key being absent when the run has no
non-null value for it; the runs partition the input in order, every sample of
a run lies in the left-closed right-open 15-second interval whose right
endpoint is the run's label, and the labels are strictly increasing. -/
theorem C2_amended (ms : List Meas)
    (hpos : ∀ m ∈ ms, Q.posden m.t_seconds)
    (hnn : ∀ m ∈ ms, (0 : Q) ≤ m.t_seconds)
    (hnum : ∀ m ∈ ms, measNumeric m)
    (hsort : List.Chain' (fun a b => a.t_seconds ≤ b.t_seconds) ms) :
    ∃ l, aggregate_by_interval ms GRAPH_INTERVAL_SECONDS = Except.ok l ∧
      List.Forall₂ (fun (p : ℤ × List Meas) (r : AggRec) =>
        r.t_seconds = qofInt p.1 ∧
        ∀ k, k ∉ excludedKeys → lookupKV k r.fields = specFieldValue p.2 k)
        (bucketRuns GRAPH_INTERVAL_SECONDS ms) l ∧
      (bucketRuns GRAPH_INTERVAL_SECONDS ms).flatMap Prod.snd = ms ∧
      (∀ p ∈ bucketRuns GRAPH_INTERVAL_SECONDS ms, ∀ m ∈ p.2,
        ((p.1 : ℚ) - (GRAPH_INTERVAL_SECONDS : ℚ)) ≤ m.t_seconds.toRat ∧
          m.t_seconds.toRat < (p.1 : ℚ)) ∧
      List.Chain' (· < ·) ((bucketRuns GRAPH_INTERVAL_SECONDS ms).map Prod.fst) := by
  have hiv : (0 : ℤ) < GRAPH_INTERVAL_SECONDS := by decide
  have hms : ∀ p ∈ bucketRuns GRAPH_INTERVAL_SECONDS ms, ∀ m ∈ p.2, m ∈ ms := by
    intro p hp m hm
    have hmem : m ∈ (bucketRuns GRAPH_INTERVAL_SECONDS ms).flatMap Prod.snd :=
      List.mem_flatMap.mpr ⟨p, hp, hm⟩
    rwa [bucketRuns_flat] at hmem
  obtain ⟨l, hl, hfor⟩ := runsAgg_spec (bucketRuns GRAPH_INTERVAL_SECONDS ms)
    (fun p hp m hm => hnum m (hms p hp m hm))
  refine ⟨l, ?_, hfor, bucketRuns_flat _ ms, ?_,
    bucketRuns_chain _ hiv ms hpos hsort⟩
  · rw [aggregate_eq_runsAgg _ hiv ms hpos hnn, hl]
  · intro p hp m hm
    have hmem := hms p hp m hm
    have hb := bucketRuns_buckets GRAPH_INTERVAL_SECONDS ms p hp m hm
    have hbd := bucketOf_bounds GRAPH_INTERVAL_SECONDS hiv m.t_seconds (hpos m hmem)
    rw [hb] at hbd
    exact hbd

/-- The claim's own example stream: samples at t = 0, 5, 10, 14, 16, 20
seconds carrying heart rates 10, 20, 30, 40, 50, 60. -/
def msC2W : List Meas :=
  [{ t_seconds := 0, fields := [("t", PyVal.str "0:00:00"), ("FC", PyVal.num 10)] },
   { t_seconds := 5, fields := [("t", PyVal.str "0:00:05"), ("FC", PyVal.num 20)] },
   { t_seconds := 10, fields := [("t", PyVal.str "0:00:10"), ("FC", PyVal.num 30)] },
   { t_seconds := 14, fields := [("t", PyVal.str "0:00:14"), ("FC", PyVal.num 40)] },
   { t_seconds := 16, fields := [("t", PyVal.str "0:00:16"), ("FC", PyVal.num 50)] },
   { t_seconds := 20, fields := [("t", PyVal.str "0:00:20"), ("FC", PyVal.num 60)] }]

/-- Witness for C2 (amended) on the claim's example: the hypotheses hold,
the amended conclusion follows, and concretely the buckets are 15
(grouping t = 0, 5, 10, 14, mean heart rate 25) and 30 (grouping t = 16, 20,
mean heart rate 55). -/
theorem C2_witness :
    ((∀ m ∈ msC2W, Q.posden m.t_seconds) ∧ (∀ m ∈ msC2W, (0 : Q) ≤ m.t_seconds) ∧
      (∀ m ∈ msC2W, measNumeric m) ∧
      List.Chain' (fun a b => a.t_seconds ≤ b.t_seconds) msC2W) ∧
    (∃ l, aggregate_by_interval msC2W GRAPH_INTERVAL_SECONDS = Except.ok l ∧
      List.Forall₂ (fun (p : ℤ × List Meas) (r : AggRec) =>
        r.t_seconds = qofInt p.1 ∧
        ∀ k, k ∉ excludedKeys → lookupKV k r.fields = specFieldValue p.2 k)
        (bucketRuns GRAPH_INTERVAL_SECONDS msC2W) l ∧
      (bucketRuns GRAPH_INTERVAL_SECONDS msC2W).flatMap Prod.snd = msC2W ∧
      (∀ p ∈ bucketRuns GRAPH_INTERVAL_SECONDS msC2W, ∀ m ∈ p.2,
        ((p.1 : ℚ) - (GRAPH_INTERVAL_SECONDS : ℚ)) ≤ m.t_seconds.toRat ∧
          m.t_seconds.toRat < (p.1 : ℚ)) ∧
      List.Chain' (· < ·) ((bucketRuns GRAPH_INTERVAL_SECONDS msC2W).map Prod.fst)) ∧
    aggregate_by_interval msC2W GRAPH_INTERVAL_SECONDS =
      Except.ok [{ t_seconds := 15, fields := [("FC", 25)] },
                 { t_seconds := 30, fields := [("FC", 55)] }] :=
  ⟨⟨by with_unfolding_all decide, by with_unfolding_all decide,
    by with_unfolding_all decide,
    by
      refine List.Chain.cons ?_ (List.Chain.cons ?_ (List.Chain.cons ?_
        (List.Chain.cons ?_ (List.Chain.cons ?_ List.Chain.nil))))
      all_goals with_unfolding_all decide⟩,
   C2_amended msC2W (by with_unfolding_all decide) (by with_unfolding_all decide)
     (by with_unfolding_all decide)
     (by
      refine List.Chain.cons ?_ (List.Chain.cons ?_ (List.Chain.cons ?_
        (List.Chain.cons ?_ (List.Chain.cons ?_ List.Chain.nil))))
      all_goals with_unfolding_all decide),
   by with_unfolding_all decide⟩

end Enduraw
